import Mathlib

/-!
Verification development for the Cross-Training Matrix Scheduler
(`scheduler/scheduler.py`, `scheduler/models.py`).

The Python source is shallowly embedded: Python `int` becomes `Int`,
Python `float` (hours, weights, scores) becomes `ℚ` (the source only
performs field arithmetic and comparisons on these values, so exact
rational arithmetic models the computations' structure), Python `str`
becomes `String` with comparisons performed on the underlying code-point
list (Python compares strings lexicographically by code point), Python
`dict` becomes an insertion-ordered association list with unique keys,
and Python `set` becomes a duplicate-free list.  Python's stable sort
(`list.sort(key=..., reverse=True)`) is modelled by a stable insertion
sort: for a total preorder comparator the output of a stable sort is
unique, so any stable sort computes the same list.

Methods of `MatrixScheduler` become functions over an explicit
`SchedState`; `raise ValueError` becomes an `Except String` result
paired with the state at the moment the exception escapes.
-/

/-! ## Strings as code-point lists -/

/-- Python lexicographic comparison of strings, element-wise on code
points, a proper prefix being smaller. -/
def charsLt : List Char → List Char → Bool
  | [], [] => false
  | [], _ :: _ => true
  | _ :: _, [] => false
  | a :: as, b :: bs => if a < b then true else if b < a then false else charsLt as bs

/-- Python `s < t` on strings. -/
def strLt (s t : String) : Bool := charsLt s.data t.data

/-- Python `s.split("-")`: split on every dash, keeping empty pieces. -/
def splitOnDash : List Char → List (List Char)
  | [] => [[]]
  | c :: cs =>
    let r := splitOnDash cs
    if c = '-' then [] :: r
    else
      match r with
      | h :: t => (c :: h) :: t
      | [] => [[c]]

/-- All characters are ASCII decimal digits. -/
def allDigits (cs : List Char) : Bool := cs.all fun c => c.isDigit

/-- Value of a string of decimal digits. -/
def digitsToNat (cs : List Char) : Nat :=
  cs.foldl (fun acc c => 10 * acc + (c.toNat - 48)) 0

/-- Decimal rendering of `n`, zero-padded on the left to `width`. -/
def padNum (width n : Nat) : List Char :=
  let ds := Nat.toDigits 10 n
  List.replicate (width - ds.length) '0' ++ ds

/-! ## Calendar dates

Models Python's `datetime.date`: a year/month/day triple, with
conversion to and from a day ordinal (the standard civil-calendar
day-count algorithm), subtraction of dates yielding a day count, a
`strftime("%Y-%m-%d")` renderer and a `strptime(s, "%Y-%m-%d")` parser. -/

structure Date where
  year : Int
  month : Int
  day : Int
deriving DecidableEq, Repr

def isLeapYear (y : Int) : Bool :=
  y % 4 = 0 && (y % 100 ≠ 0 || y % 400 = 0)

def daysInMonth (y m : Int) : Int :=
  if m = 2 then (if isLeapYear y then 29 else 28)
  else if m = 4 ∨ m = 6 ∨ m = 9 ∨ m = 11 then 30
  else 31

/-- Days since 1970-01-01 of a civil date (days-from-civil algorithm). -/
def Date.toOrdinal (d : Date) : Int :=
  let y := if d.month ≤ 2 then d.year - 1 else d.year
  let era := Int.fdiv y 400
  let yoe := y - era * 400
  let doy := Int.fdiv (153 * (d.month + (if d.month > 2 then -3 else 9)) + 2) 5 + d.day - 1
  let doe := yoe * 365 + Int.fdiv yoe 4 - Int.fdiv yoe 100 + doy
  era * 146097 + doe - 719468

/-- Civil date of a day ordinal (civil-from-days algorithm). -/
def Date.ofOrdinal (z0 : Int) : Date :=
  let z := z0 + 719468
  let era := Int.fdiv z 146097
  let doe := z - era * 146097
  let yoe := Int.fdiv (doe - Int.fdiv doe 1460 + Int.fdiv doe 36524 - Int.fdiv doe 146096) 365
  let y := yoe + era * 400
  let doy := doe - (365 * yoe + Int.fdiv yoe 4 - Int.fdiv yoe 100)
  let mp := Int.fdiv (5 * doy + 2) 153
  let d := doy - Int.fdiv (153 * mp + 2) 5 + 1
  let m := mp + (if mp < 10 then 3 else -9)
  { year := y + (if m ≤ 2 then 1 else 0), month := m, day := d }

/-- `strftime("%Y-%m-%d")`. -/
def Date.format (d : Date) : String :=
  String.mk (padNum 4 d.year.toNat ++ '-' :: (padNum 2 d.month.toNat ++ '-' :: padNum 2 d.day.toNat))

/-- Model of `datetime.strptime(s, "%Y-%m-%d").date()`: exactly three
dash-separated fields, a four-digit year, a one- or two-digit month and
day, with the month in 1..12, the day valid for the month, and the year
at least `MINYEAR = 1`; anything else raises `ValueError`, i.e. parses
to `none`. -/
def parseDate (s : String) : Option Date :=
  match splitOnDash s.data with
  | [ys, ms, ds] =>
    if ys.length = 4 && allDigits ys
        && decide (1 ≤ ms.length) && decide (ms.length ≤ 2) && allDigits ms
        && decide (1 ≤ ds.length) && decide (ds.length ≤ 2) && allDigits ds then
      let y : Int := digitsToNat ys
      let m : Int := digitsToNat ms
      let d : Int := digitsToNat ds
      if 1 ≤ y ∧ 1 ≤ m ∧ m ≤ 12 ∧ 1 ≤ d ∧ d ≤ daysInMonth y m then
        some { year := y, month := m, day := d }
      else none
    else none
  | _ => none

-- sanity checks of the date model against concrete values
example : Date.toOrdinal { year := 1970, month := 1, day := 1 } = 0 := by decide
example : Date.toOrdinal { year := 2026, month := 10, day := 12 } = 20738 := by decide
example : Date.ofOrdinal 20738 = { year := 2026, month := 10, day := 12 } := by decide
example : Date.ofOrdinal (20738 - 30) = { year := 2026, month := 9, day := 12 } := by decide
example : Date.format { year := 2026, month := 9, day := 12 } = "2026-09-12" := by decide
example : parseDate "2026-09-12" = some { year := 2026, month := 9, day := 12 } := by decide
example : parseDate "bad-date" = none := by decide
example : parseDate "2026-02-30" = none := by decide
example : strLt "bad-date" "2026-09-12" = false := by decide

/-! ## Data model (`scheduler/models.py`) -/

/-- A manufacturing station requiring staffing. -/
structure Station where
  id : String
  name : String
  required_skill_level : Int
  required_headcount : Int
  required_certification : Int
deriving DecidableEq, Repr

/-- An employee with per-station competency ratings and certification.
`station_competencies` models the Python dict as an insertion-ordered
association list. -/
structure Employee where
  id : String
  name : String
  station_competencies : List (String × Int)
  certification_level : Int
deriving DecidableEq, Repr

/-- `Employee.get_competency`: competency for a station, default 0. -/
def Employee.get_competency (e : Employee) (station_id : String) : Int :=
  (e.station_competencies.lookup station_id).getD 0

/-- An assignment of employees to a station. -/
structure Assignment where
  station_id : String
  assigned_employee_ids : List String
  is_fully_staffed : Bool
  unfilled_slots : Int
deriving DecidableEq, Repr

/-- A historical record of an employee-station assignment for a day. -/
structure AssignmentLog where
  log_date : String
  employee_id : String
  station_id : String
  hours : ℚ
deriving DecidableEq, Repr

/-- Computed rotation statistics for an employee-station pair. -/
structure RotationStats where
  employee_id : String
  station_id : String
  total_hours : ℚ
  days_since_last : Int
  assignment_count : Int
deriving DecidableEq, Repr

/-- Weight profile for a scheduling scenario. -/
structure ScenarioWeights where
  name : String
  skill_weight : ℚ
  recency_weight : ℚ
  fatigue_weight : ℚ
  invert_skill : Bool
deriving DecidableEq, Repr

/-- `SCENARIOS["Balanced"]`, the default profile. -/
def scenarioBalanced : ScenarioWeights :=
  { name := "Balanced", skill_weight := 0.40, recency_weight := 0.35,
    fatigue_weight := 0.25, invert_skill := false }

/-! ## Python dict / set helpers -/

/-- Python `d[key(x)] = x` on an insertion-ordered dict rendered as its
value list: overwrite in place when the key is present, else append. -/
def upsertBy {α : Type} (key : α → String) (d : List α) (x : α) : List α :=
  if d.any (fun y => key y == key x) then
    d.map (fun y => if key y == key x then x else y)
  else d ++ [x]

/-- Value list of the dict `{key(x): x for x in xs}` (last value wins,
position of first insertion kept). -/
def dictValues {α : Type} (key : α → String) (xs : List α) : List α :=
  xs.foldl (upsertBy key) []

/-- Python `set.add` on a duplicate-free list model of a set. -/
def setAdd (l : List String) (x : String) : List String :=
  if l.contains x then l else l ++ [x]

/-- Python `set(xs)` on the list model: drop duplicate elements. -/
def setOfList (xs : List String) : List String := xs.foldl setAdd []

/-- Rotation stats keyed by `(employee_id, station_id)`. -/
abbrev StatsMap := List ((String × String) × RotationStats)

/-- Dict write `stats[key] = v`. -/
def statsInsert (stats : StatsMap) (key : String × String) (v : RotationStats) : StatsMap :=
  if (stats.lookup key).isSome then
    stats.map (fun p => if p.1 = key then (key, v) else p)
  else stats ++ [(key, v)]

/-! ## Scheduler state (`MatrixScheduler`) -/

/-- The mutable state of a `MatrixScheduler` instance.  Dicts are
insertion-ordered value lists; sets are duplicate-free lists. -/
structure SchedState where
  stations : List Station
  employees : List Employee
  assignments : List Assignment
  available_employees : List String
  absent_employees : List String
  assignment_logs : List AssignmentLog
  scenario : ScenarioWeights
deriving DecidableEq, Repr

/-- `MatrixScheduler.__init__(stations, employees)`. -/
def initScheduler (stations : List Station) (employees : List Employee) : SchedState :=
  let stationDict := dictValues Station.id stations
  let employeeDict := dictValues Employee.id employees
  { stations := stationDict
    employees := employeeDict
    assignments := []
    available_employees := employeeDict.map Employee.id
    absent_employees := []
    assignment_logs := []
    scenario := scenarioBalanced }

/-! ## Rotation statistics builder (`_build_rotation_stats`)

`date.today()` is a parameter `today`; the Python method reads the
ambient clock. -/

/-- One iteration of the log fold in `_build_rotation_stats`: the
lexicographic string pre-filter against the cutoff, the
accumulation of hours and count, and the guarded recency update whose
`except ValueError: pass` is the `none` branch of `parseDate`. -/
def statsStep (today : Date) (cutoff_str : String) (stats : StatsMap)
    (log : AssignmentLog) : StatsMap :=
  if strLt log.log_date cutoff_str then stats
  else
    let key := (log.employee_id, log.station_id)
    let s0 := match stats.lookup key with
      | some s => s
      | none =>
        { employee_id := log.employee_id, station_id := log.station_id,
          total_hours := 0, days_since_last := 999, assignment_count := 0 }
    let s1 := { s0 with total_hours := s0.total_hours + log.hours,
                        assignment_count := s0.assignment_count + 1 }
    let s2 := match parseDate log.log_date with
      | some d =>
        { s1 with days_since_last := min s1.days_since_last (today.toOrdinal - d.toOrdinal) }
      | none => s1
    statsInsert stats key s2

/-- `MatrixScheduler._build_rotation_stats(rolling_window_days)`. -/
def build_rotation_stats (today : Date) (rolling_window_days : Int)
    (logs : List AssignmentLog) : StatsMap :=
  let cutoff := Date.ofOrdinal (today.toOrdinal - rolling_window_days)
  let cutoff_str := cutoff.format
  logs.foldl (statsStep today cutoff_str) []

/-! ## Qualification and candidate ranking (`_get_qualified_employees`) -/

/-- The accumulation loop at the top of `_get_qualified_employees`:
triples `(emp_id, competency, certification_level)` of the available
employees meeting both gates, in availability iteration order.  The
`none` branch of the employee lookup is unreachable whenever
`available ⊆ employees` (Python indexes `self.employees[emp_id]`
directly). -/
def qualified_candidates (employees : List Employee) (available : List String)
    (station : Station) : List (String × Int × Int) :=
  available.filterMap fun emp_id =>
    match employees.find? (fun e => e.id == emp_id) with
    | none => none
    | some employee =>
      let competency := employee.get_competency station.id
      if employee.certification_level ≥ station.required_certification
          ∧ competency ≥ station.required_skill_level then
        some (emp_id, competency, employee.certification_level)
      else none

/-- The priority score computed for one candidate when rotation stats
are present. -/
def priorityScore (w : ScenarioWeights) (rotation_stats : StatsMap)
    (station_id emp_id : String) (competency certification : Int) : ℚ :=
  let skill_score : ℚ := ((competency + certification : Int) : ℚ) / 6
  let skill_score := if w.invert_skill then 1 - skill_score else skill_score
  match rotation_stats.lookup (emp_id, station_id) with
  | some rs =>
    let recency_score : ℚ := ((min rs.days_since_last 30 : Int) : ℚ) / 30
    let fatigue_score : ℚ := min rs.total_hours 240 / 240
    w.skill_weight * skill_score + w.recency_weight * recency_score
      - w.fatigue_weight * fatigue_score
  | none =>
    let recency_score : ℚ := 1
    let fatigue_score : ℚ := 0
    w.skill_weight * skill_score + w.recency_weight * recency_score
      - w.fatigue_weight * fatigue_score

/-- Stable descending order on scored candidates (`scored.sort(key=
lambda x: x[1], reverse=True)`). -/
def scoredGE (a b : String × ℚ) : Prop := b.2 ≤ a.2

instance : DecidableRel scoredGE := fun a b => inferInstanceAs (Decidable (b.2 ≤ a.2))

/-- Stable descending order on `(emp_id, competency, certification)`
triples keyed by `(certification, competency)` (`qualified.sort(key=
lambda x: (x[2], x[1]), reverse=True)`). -/
def legacyGE (a b : String × Int × Int) : Prop :=
  b.2.2 < a.2.2 ∨ (b.2.2 = a.2.2 ∧ b.2.1 ≤ a.2.1)

instance : DecidableRel legacyGE := fun a b =>
  inferInstanceAs (Decidable (b.2.2 < a.2.2 ∨ (b.2.2 = a.2.2 ∧ b.2.1 ≤ a.2.1)))

/-- Stable descending order on stations by `required_skill_level`
(`sorted(self.stations.values(), key=lambda s: s.required_skill_level,
reverse=True)`). -/
def stationGE (a b : Station) : Prop := b.required_skill_level ≤ a.required_skill_level

instance : DecidableRel stationGE := fun a b =>
  inferInstanceAs (Decidable (b.required_skill_level ≤ a.required_skill_level))

/-- `MatrixScheduler._get_qualified_employees(station, rotation_stats)`.
`self.employees`, `self.available_employees` and `self.scenario` are
explicit arguments. -/
def get_qualified_employees (employees : List Employee) (available : List String)
    (w : ScenarioWeights) (station : Station)
    (rotation_stats : Option StatsMap) : List String :=
  let qualified := qualified_candidates employees available station
  match rotation_stats with
  | some stats =>
    let scored := qualified.map fun t =>
      (t.1, priorityScore w stats station.id t.1 t.2.1 t.2.2)
    (List.insertionSort scoredGE scored).map (·.1)
  | none =>
    (List.insertionSort legacyGE qualified).map (·.1)

-- sanity check of the fallback ranking on a concrete input
example :
    get_qualified_employees
      [{ id := "e1", name := "A", station_competencies := [("s1", 3)], certification_level := 0 },
       { id := "e2", name := "B", station_competencies := [("s1", 2)], certification_level := 1 }]
      ["e1", "e2"] scenarioBalanced
      { id := "s1", name := "S", required_skill_level := 2, required_headcount := 1,
        required_certification := 0 }
      none = ["e2", "e1"] := by decide

/-! ## Allocator (`generate_schedule`, `handle_absence`, `rebalance_schedule`) -/

/-- The slot-filling loop of `generate_schedule`: walk the ranked
candidate list, stop when `slots_to_fill <= 0`, append each taken
candidate to the assignment and discard it from the available set. -/
def assignLoop : List String → Int → List String → List String → List String × List String
  | [], _, assigned, avail => (assigned, avail)
  | emp_id :: rest, slots_to_fill, assigned, avail =>
    if slots_to_fill ≤ 0 then (assigned, avail)
    else assignLoop rest (slots_to_fill - 1) (assigned ++ [emp_id]) (avail.erase emp_id)

/-- The per-station body of the `generate_schedule` loop, acting on the
accumulated assignment dict and the available set. -/
def processStation (employees : List Employee) (w : ScenarioWeights)
    (rotation_stats : Option StatsMap) (acc : List Assignment × List String)
    (station : Station) : List Assignment × List String :=
  let qualified := get_qualified_employees employees acc.2 w station rotation_stats
  let (assigned, avail) := assignLoop qualified station.required_headcount [] acc.2
  let filled : Int := assigned.length
  let a : Assignment :=
    { station_id := station.id, assigned_employee_ids := assigned,
      unfilled_slots := station.required_headcount - filled,
      is_fully_staffed := station.required_headcount - filled == 0 }
  (upsertBy Assignment.station_id acc.1 a, avail)

/-- Body of `MatrixScheduler.generate_schedule` after the optional
scenario update: reset the assignments and the available set, build
rotation stats when history exists, and fill stations in stable
descending `required_skill_level` order. -/
def generate_schedule_core (today : Date) (s : SchedState) : SchedState :=
  let avail0 := (s.employees.map Employee.id).filter
    (fun e => !(s.absent_employees.contains e))
  let rotation_stats :=
    if s.assignment_logs.isEmpty then none
    else some (build_rotation_stats today 30 s.assignment_logs)
  let sorted_stations := List.insertionSort stationGE s.stations
  let res :=
    sorted_stations.foldl (processStation s.employees s.scenario rotation_stats) ([], avail0)
  { s with assignments := res.1, available_employees := res.2 }

/-- `MatrixScheduler.generate_schedule(scenario)`.  `date.today()` is
the explicit parameter `today`. -/
def generate_schedule (today : Date) (s : SchedState)
    (scenario : Option ScenarioWeights) : SchedState :=
  generate_schedule_core today
    (match scenario with
      | some w => { s with scenario := w }
      | none => s)

/-- The `while assignment.unfilled_slots > 0` loop of
`rebalance_schedule`.  Fuel bounds the iteration count; called with
fuel `unfilled_slots.toNat` it runs exactly as the Python loop, which
decrements `unfilled_slots` on every iteration that does not break. -/
def rebalanceLoop (employees : List Employee) (w : ScenarioWeights) (station : Station) :
    Nat → List String → Assignment → List String × Assignment
  | 0, avail, a => (avail, a)
  | fuel + 1, avail, a =>
    if a.unfilled_slots ≤ 0 then (avail, a)
    else
      match get_qualified_employees employees avail w station none with
      | [] => (avail, a)
      | emp_id :: _ =>
        rebalanceLoop employees w station fuel (avail.erase emp_id)
          { a with assigned_employee_ids := a.assigned_employee_ids ++ [emp_id],
                   unfilled_slots := a.unfilled_slots - 1 }

/-- `MatrixScheduler.rebalance_schedule(station_id)`.  The pair carries
the state at exit together with either the returned boolean or the
escaped `ValueError` message; the unknown-station check happens before
any mutation. -/
def rebalance_schedule (s : SchedState) (station_id : String) :
    SchedState × Except String Bool :=
  match s.stations.find? (fun st => st.id == station_id) with
  | none => (s, Except.error ("Unknown station: " ++ station_id))
  | some station =>
    let sa : SchedState × Assignment :=
      match s.assignments.find? (fun a => a.station_id == station_id) with
      | some a => (s, a)
      | none =>
        let a : Assignment := { station_id := station_id, assigned_employee_ids := [],
                                is_fully_staffed := false, unfilled_slots := 0 }
        ({ s with assignments := s.assignments ++ [a] }, a)
    let s1 := sa.1
    let a := sa.2
    let r := rebalanceLoop s1.employees s1.scenario station
      a.unfilled_slots.toNat s1.available_employees a
    let a2 := { r.2 with is_fully_staffed := r.2.unfilled_slots == 0 }
    ({ s1 with available_employees := r.1,
               assignments := s1.assignments.map
                 (fun b => if b.station_id == station_id then a2 else b) },
     Except.ok a2.is_fully_staffed)

/-- The rebalance loop at the end of `handle_absence`; a `ValueError`
escaping from an inner `rebalance_schedule` aborts the remaining
iterations with the state mutated so far. -/
def rebalanceAll : SchedState → List String → SchedState × Except String Unit
  | s, [] => (s, Except.ok ())
  | s, station_id :: rest =>
    match rebalance_schedule s station_id with
    | (s1, Except.ok _) => rebalanceAll s1 rest
    | (s1, Except.error e) => (s1, Except.error e)

/-- `MatrixScheduler.handle_absence(employee_id)`.  Returns the state
at exit with either the affected station list or the escaped
`ValueError` message. -/
def handle_absence (s : SchedState) (employee_id : String) :
    SchedState × Except String (List String) :=
  if !(s.employees.any (fun e => e.id == employee_id)) then
    (s, Except.error ("Unknown employee: " ++ employee_id))
  else
    let s1 := { s with absent_employees := setAdd s.absent_employees employee_id,
                       available_employees := s.available_employees.erase employee_id }
    let affected := (s1.assignments.filter
      (fun a => a.assigned_employee_ids.contains employee_id)).map Assignment.station_id
    let s2 := { s1 with assignments := s1.assignments.map fun a =>
      if a.assigned_employee_ids.contains employee_id then
        { a with assigned_employee_ids := a.assigned_employee_ids.erase employee_id,
                 unfilled_slots := a.unfilled_slots + 1,
                 is_fully_staffed := false }
      else a }
    let r := rebalanceAll s2 affected
    (r.1, r.2.map fun _ => affected)

/-- Body of `MatrixScheduler.is_qualified(employee_id, station_id)`,
with the employee and station dicts as explicit arguments. -/
def is_qualified_core (employees : List Employee) (stations : List Station)
    (employee_id station_id : String) : Bool :=
  match employees.find? (fun e => e.id == employee_id),
        stations.find? (fun st => st.id == station_id) with
  | some employee, some station =>
    decide (employee.certification_level ≥ station.required_certification
      ∧ employee.get_competency station_id ≥ station.required_skill_level)
  | _, _ => false

/-- `MatrixScheduler.is_qualified(employee_id, station_id)`. -/
def is_qualified (s : SchedState) (employee_id station_id : String) : Bool :=
  is_qualified_core s.employees s.stations employee_id station_id

/-! ## Serialization (`to_json` / `from_json`)

The JSON text layer (`json.dumps` / `json.loads`, an external library
round-trip) is factored out: the snapshot is the dict `state` built in
`to_json` and consumed by `from_json`.  The per-entity
`to_dict`/`from_dict` pairs are identities on the embedded records:
every field serialized by `to_dict` is read back by `from_dict`, and
the legacy `current_skill_level` branch of `Employee.from_dict` is not
taken because `to_dict` always emits `station_competencies`. -/

structure Snapshot where
  stations : List Station
  employees : List Employee
  assignments : List Assignment
  available_employees : List String
  absent_employees : List String
  assignment_logs : List AssignmentLog
deriving DecidableEq, Repr

/-- `MatrixScheduler.to_json` (up to the JSON text encoding). -/
def to_snapshot (s : SchedState) : Snapshot :=
  { stations := s.stations
    employees := s.employees
    assignments := s.assignments
    available_employees := s.available_employees
    absent_employees := s.absent_employees
    assignment_logs := s.assignment_logs }

/-- `MatrixScheduler.from_json` (up to the JSON text decoding): runs
the constructor on the stored stations and employees, re-inserts each
stored assignment into the assignment dict, overwrites the
available/absent sets with the stored ones, and appends the stored
logs.  The scenario is not part of the snapshot and stays `Balanced`. -/
def from_snapshot (snap : Snapshot) : SchedState :=
  let s := initScheduler snap.stations snap.employees
  { s with
    assignments := snap.assignments.foldl (upsertBy Assignment.station_id) []
    available_employees := setOfList snap.available_employees
    absent_employees := setOfList snap.absent_employees
    assignment_logs := s.assignment_logs ++ snap.assignment_logs }

/-! ## Lemmas about the dict and set models -/

theorem upsertBy_of_key_not_mem {α : Type} (key : α → String) (d : List α) (x : α)
    (h : ∀ y ∈ d, key y ≠ key x) : upsertBy key d x = d ++ [x] := by
  unfold upsertBy
  rw [if_neg]
  simp only [List.any_eq_true, beq_iff_eq, not_exists, not_and]
  exact fun y hy => h y hy

theorem upsertBy_map_key {α : Type} (key : α → String) (d : List α) (x : α) :
    (upsertBy key d x).map key = d.map key
      ∨ (upsertBy key d x).map key = d.map key ++ [key x] := by
  unfold upsertBy
  by_cases hc : d.any (fun y => key y == key x) = true
  · left
    rw [if_pos hc, List.map_map]
    refine List.map_congr_left fun y _ => ?_
    by_cases hy : key y == key x
    · simp only [Function.comp_apply, hy, if_pos]
      exact (beq_iff_eq.mp hy).symm
    · simp only [Function.comp_apply, hy]
      rfl
  · right
    rw [if_neg hc, List.map_append]
    rfl

theorem upsertBy_keys_nodup {α : Type} (key : α → String) (d : List α) (x : α)
    (h : (d.map key).Nodup) : ((upsertBy key d x).map key).Nodup := by
  rcases upsertBy_map_key key d x with h1 | h1
  · rw [h1]; exact h
  · rw [h1]
    have hx : key x ∉ d.map key := by
      intro hmem
      have : d.any (fun y => key y == key x) = true := by
        simp only [List.any_eq_true, beq_iff_eq]
        rcases List.mem_map.mp hmem with ⟨y, hy, hky⟩
        exact ⟨y, hy, hky⟩
      unfold upsertBy at h1
      rw [if_pos this] at h1
      have := congrArg List.length h1
      simp [List.length_map] at this
    simp [List.nodup_append, h, hx]

theorem foldl_upsertBy_keys_nodup {α : Type} (key : α → String) :
    ∀ (xs d : List α), (d.map key).Nodup → ((xs.foldl (upsertBy key) d).map key).Nodup
  | [], _, h => h
  | x :: xs, d, h =>
    foldl_upsertBy_keys_nodup key xs (upsertBy key d x) (upsertBy_keys_nodup key d x h)

theorem dictValues_keys_nodup {α : Type} (key : α → String) (xs : List α) :
    ((dictValues key xs).map key).Nodup :=
  foldl_upsertBy_keys_nodup key xs [] List.nodup_nil

theorem foldl_upsertBy_eq_append {α : Type} (key : α → String) :
    ∀ (xs d : List α), ((d ++ xs).map key).Nodup → xs.foldl (upsertBy key) d = d ++ xs
  | [], d, _ => by simp
  | x :: xs, d, h => by
    have hx : ∀ y ∈ d, key y ≠ key x := by
      intro y hy heq
      have h' := h
      rw [List.map_append, List.nodup_append] at h'
      exact h'.2.2 (List.mem_map_of_mem key hy) (by simp [heq])
    have step : upsertBy key d x = d ++ [x] := upsertBy_of_key_not_mem key d x hx
    have h2 : (((d ++ [x]) ++ xs).map key).Nodup := by
      simpa using h
    calc (x :: xs).foldl (upsertBy key) d
        = xs.foldl (upsertBy key) (upsertBy key d x) := rfl
      _ = xs.foldl (upsertBy key) (d ++ [x]) := by rw [step]
      _ = (d ++ [x]) ++ xs := foldl_upsertBy_eq_append key xs (d ++ [x]) h2
      _ = d ++ x :: xs := by simp

theorem dictValues_eq_self {α : Type} (key : α → String) (xs : List α)
    (h : (xs.map key).Nodup) : dictValues key xs = xs := by
  unfold dictValues
  rw [foldl_upsertBy_eq_append key xs [] (by simpa using h)]
  rfl

theorem setAdd_nodup (l : List String) (x : String) (h : l.Nodup) :
    (setAdd l x).Nodup := by
  unfold setAdd
  by_cases hc : l.contains x = true
  · rw [if_pos hc]; exact h
  · rw [if_neg hc]
    have hx : x ∉ l := fun hm => hc (List.elem_iff.mpr hm)
    simp [List.nodup_append, h, hx]

theorem foldl_setAdd_eq_append :
    ∀ (xs d : List String), (d ++ xs).Nodup → xs.foldl setAdd d = d ++ xs
  | [], d, _ => by simp
  | x :: xs, d, h => by
    have hx : x ∉ d := by
      rw [List.nodup_append] at h
      exact fun hm => h.2.2 hm (by simp)
    have step : setAdd d x = d ++ [x] := by
      unfold setAdd
      rw [if_neg]
      exact fun hm => hx (List.elem_iff.mp hm)
    have h2 : ((d ++ [x]) ++ xs).Nodup := by simpa using h
    calc (x :: xs).foldl setAdd d
        = xs.foldl setAdd (setAdd d x) := rfl
      _ = xs.foldl setAdd (d ++ [x]) := by rw [step]
      _ = (d ++ [x]) ++ xs := foldl_setAdd_eq_append xs (d ++ [x]) h2
      _ = d ++ x :: xs := by simp

theorem setOfList_eq_self (xs : List String) (h : xs.Nodup) : setOfList xs = xs := by
  unfold setOfList
  rw [foldl_setAdd_eq_append xs [] (by simpa using h)]
  rfl

theorem foldl_erase_eq_filter :
    ∀ (xs l : List String), l.Nodup →
      xs.foldl (fun acc e => acc.erase e) l = l.filter (fun a => !xs.contains a)
  | [], l, _ => by simp
  | x :: xs, l, h => by
    have step : l.erase x = l.filter (fun a => a != x) :=
      List.Nodup.erase_eq_filter h x
    calc (x :: xs).foldl (fun acc e => acc.erase e) l
        = xs.foldl (fun acc e => acc.erase e) (l.erase x) := rfl
      _ = (l.erase x).filter (fun a => !xs.contains a) :=
          foldl_erase_eq_filter xs (l.erase x) (h.erase x)
      _ = l.filter (fun a => !(x :: xs).contains a) := by
          rw [step, List.filter_filter]
          refine List.filter_congr fun a _ => ?_
          by_cases hax : a = x <;> simp [hax, List.contains]

/-! ## Lemmas about candidate selection and ranking -/

/-- In a dict with distinct keys, `find?` on an element's own key
returns that element. -/
theorem find?_key_self {α : Type} (key : α → String) :
    ∀ (l : List α) (x : α), ((l.map key).Nodup) → x ∈ l →
      l.find? (fun y => key y == key x) = some x
  | [], _, _, hx => absurd hx (List.not_mem_nil _)
  | y :: l, x, hn, hx => by
    rcases List.mem_cons.mp hx with rfl | hx'
    · simp [List.find?_cons]
    · have hne : key y ≠ key x := by
        intro heq
        have : key x ∈ l.map key := List.mem_map_of_mem key hx'
        rw [List.map_cons, List.nodup_cons, heq] at hn
        exact hn.1 this
      have hb : (key y == key x) = false := by simp [hne]
      rw [List.find?_cons, hb]
      exact find?_key_self key l x (List.nodup_cons.mp (by simpa using hn)).2 hx'

theorem qualified_candidates_nil (emps : List Employee) (st : Station) :
    qualified_candidates emps [] st = [] := rfl

/-- The first components of the qualified-candidate triples form a
sublist of the availability list. -/
theorem qc_map_fst_sublist (emps : List Employee) (st : Station) :
    ∀ avail : List String,
      ((qualified_candidates emps avail st).map (·.1)).Sublist avail
  | [] => by simp [qualified_candidates]
  | e :: rest => by
    have ih := qc_map_fst_sublist emps st rest
    unfold qualified_candidates at ih ⊢
    rw [List.filterMap_cons]
    rcases hfind : emps.find? (fun x => x.id == e) with _ | emp
    · rw [hfind]
      exact ih.cons e
    · rw [hfind]
      dsimp only
      by_cases hq : emp.certification_level ≥ st.required_certification
          ∧ emp.get_competency st.id ≥ st.required_skill_level
      · rw [if_pos hq]
        rw [List.map_cons]
        exact ih.cons₂ e
      · rw [if_neg hq]
        exact ih.cons e

/-- Characterization of membership in the qualified-candidate list. -/
theorem qc_mem_spec (emps : List Employee) (avail : List String) (st : Station)
    (t : String × Int × Int) (ht : t ∈ qualified_candidates emps avail st) :
    t.1 ∈ avail ∧ ∃ emp, emps.find? (fun e => e.id == t.1) = some emp
      ∧ t.2.1 = emp.get_competency st.id ∧ t.2.2 = emp.certification_level
      ∧ emp.certification_level ≥ st.required_certification
      ∧ emp.get_competency st.id ≥ st.required_skill_level := by
  unfold qualified_candidates at ht
  rcases List.mem_filterMap.mp ht with ⟨a, ha, hfa⟩
  rcases hfind : emps.find? (fun e => e.id == a) with _ | emp
  · rw [hfind] at hfa
    exact absurd hfa (by simp)
  · rw [hfind] at hfa
    dsimp only at hfa
    by_cases hq : emp.certification_level ≥ st.required_certification
        ∧ emp.get_competency st.id ≥ st.required_skill_level
    · rw [if_pos hq] at hfa
      obtain rfl : (a, emp.get_competency st.id, emp.certification_level) = t :=
        Option.some.inj hfa
      exact ⟨ha, emp, hfind, rfl, rfl, hq.1, hq.2⟩
    · rw [if_neg hq] at hfa
      exact absurd hfa (by simp)

/-- A qualified candidate passes `is_qualified_core` for its station,
provided the station dict has distinct keys. -/
theorem qc_mem_is_qualified_core (emps : List Employee) (stations : List Station)
    (avail : List String) (st : Station) (hsn : (stations.map Station.id).Nodup)
    (hst : st ∈ stations) (t : String × Int × Int)
    (ht : t ∈ qualified_candidates emps avail st) :
    is_qualified_core emps stations t.1 st.id = true := by
  rcases qc_mem_spec emps avail st t ht with ⟨-, emp, hfind, -, -, hcert, hcomp⟩
  unfold is_qualified_core
  rw [hfind, find?_key_self Station.id stations st hsn hst]
  simp only [decide_eq_true_eq]
  exact ⟨hcert, hcomp⟩

instance : IsTotal (String × ℚ) scoredGE :=
  ⟨fun a b => (le_total b.2 a.2).imp id id⟩

instance : IsTrans (String × ℚ) scoredGE :=
  ⟨fun _ _ _ hab hbc => le_trans hbc hab⟩

instance : IsTotal (String × Int × Int) legacyGE := by
  constructor
  intro a b
  unfold legacyGE
  omega

instance : IsTrans (String × Int × Int) legacyGE := by
  constructor
  intro a b c hab hbc
  unfold legacyGE at *
  omega

instance : IsTotal Station stationGE :=
  ⟨fun a b => (le_total b.required_skill_level a.required_skill_level).imp id id⟩

instance : IsTrans Station stationGE :=
  ⟨fun _ _ _ hab hbc => le_trans hbc hab⟩

/-- The ranked output of `_get_qualified_employees` is a permutation of
the qualified candidates' ids (both ranking branches only reorder). -/
theorem gq_perm (emps : List Employee) (avail : List String) (w : ScenarioWeights)
    (st : Station) (stats? : Option StatsMap) :
    (get_qualified_employees emps avail w st stats?).Perm
      ((qualified_candidates emps avail st).map (·.1)) := by
  unfold get_qualified_employees
  rcases stats? with _ | stats
  · exact (List.perm_insertionSort legacyGE _).map _
  · refine ((List.perm_insertionSort scoredGE _).map _).trans ?_
    rw [List.map_map]
    exact List.Perm.refl _

theorem gq_subset (emps : List Employee) (avail : List String) (w : ScenarioWeights)
    (st : Station) (stats? : Option StatsMap) (x : String)
    (hx : x ∈ get_qualified_employees emps avail w st stats?) : x ∈ avail := by
  have := (gq_perm emps avail w st stats?).mem_iff.mp hx
  exact (qc_map_fst_sublist emps st avail).subset this

theorem gq_nodup (emps : List Employee) (avail : List String) (w : ScenarioWeights)
    (st : Station) (stats? : Option StatsMap) (h : avail.Nodup) :
    (get_qualified_employees emps avail w st stats?).Nodup :=
  (gq_perm emps avail w st stats?).nodup_iff.mpr
    ((qc_map_fst_sublist emps st avail).nodup h)

theorem gq_qualified (emps : List Employee) (stations : List Station)
    (avail : List String) (w : ScenarioWeights) (st : Station)
    (stats? : Option StatsMap) (hsn : (stations.map Station.id).Nodup)
    (hst : st ∈ stations) (x : String)
    (hx : x ∈ get_qualified_employees emps avail w st stats?) :
    is_qualified_core emps stations x st.id = true := by
  have hx' := (gq_perm emps avail w st stats?).mem_iff.mp hx
  rcases List.mem_map.mp hx' with ⟨t, ht, rfl⟩
  exact qc_mem_is_qualified_core emps stations avail st hsn hst t ht

/-! ## The slot-filling loop -/

/-- Closed form of `assignLoop`: it takes the first
`slots_to_fill.toNat` ranked candidates, appending them to the
accumulator and erasing each from the available set. -/
theorem assignLoop_eq :
    ∀ (q : List String) (slots : Int) (acc avail : List String),
      assignLoop q slots acc avail =
        (acc ++ q.take slots.toNat,
         (q.take slots.toNat).foldl (fun l e => l.erase e) avail)
  | [], slots, acc, avail => by simp [assignLoop]
  | e :: rest, slots, acc, avail => by
    unfold assignLoop
    by_cases hs : slots ≤ 0
    · rw [if_pos hs, Int.toNat_of_nonpos hs]
      simp
    · rw [if_neg hs]
      have hn : slots.toNat = (slots - 1).toNat + 1 := by omega
      rw [assignLoop_eq rest (slots - 1) (acc ++ [e]) (avail.erase e), hn]
      simp [List.take_succ_cons]

/-! ## The generate-schedule fold -/

/-- The relation claimed between a station and the assignment
`generate_schedule` produces for it. -/
def assignmentMatches (st : Station) (a : Assignment) : Prop :=
  a.station_id = st.id
    ∧ a.unfilled_slots = st.required_headcount - a.assigned_employee_ids.length
    ∧ (a.is_fully_staffed = true ↔ a.unfilled_slots = 0)
    ∧ (0 ≤ st.required_headcount →
        (a.assigned_employee_ids.length : Int) ≤ st.required_headcount)

/-- One step of the `generate_schedule` station loop preserves the
allocation invariants and produces a well-formed assignment for the
processed station. -/
theorem processStation_step
    (emps : List Employee) (stations : List Station) (w : ScenarioWeights)
    (stats? : Option StatsMap) (st : Station) (acc : List Assignment × List String)
    (hsn : (stations.map Station.id).Nodup)
    (hst : st ∈ stations)
    (hkey : st.id ∉ acc.1.map Assignment.station_id)
    (hnd : (acc.1.flatMap Assignment.assigned_employee_ids ++ acc.2).Nodup)
    (hsub : ∀ e ∈ acc.2, e ∈ emps.map Employee.id)
    (hqual : ∀ a ∈ acc.1, ∀ e ∈ a.assigned_employee_ids,
        is_qualified_core emps stations e a.station_id = true) :
    (processStation emps w stats? acc st).1.map Assignment.station_id
        = acc.1.map Assignment.station_id ++ [st.id]
      ∧ ((processStation emps w stats? acc st).1.flatMap Assignment.assigned_employee_ids
          ++ (processStation emps w stats? acc st).2).Nodup
      ∧ (∀ e ∈ (processStation emps w stats? acc st).2, e ∈ emps.map Employee.id)
      ∧ (∀ a ∈ (processStation emps w stats? acc st).1, ∀ e ∈ a.assigned_employee_ids,
          is_qualified_core emps stations e a.station_id = true)
      ∧ (∀ a ∈ acc.1, a ∈ (processStation emps w stats? acc st).1)
      ∧ (∃ a ∈ (processStation emps w stats? acc st).1, assignmentMatches st a) := by
  have havail_nodup : acc.2.Nodup := (List.nodup_append.mp hnd).2.1
  have hflat_nodup : (acc.1.flatMap Assignment.assigned_employee_ids).Nodup :=
    (List.nodup_append.mp hnd).1
  have hdisj : (acc.1.flatMap Assignment.assigned_employee_ids).Disjoint acc.2 :=
    (List.nodup_append.mp hnd).2.2
  set q := get_qualified_employees emps acc.2 w st stats? with hq
  set taken := q.take st.required_headcount.toNat with htaken
  set anew : Assignment :=
    { station_id := st.id, assigned_employee_ids := taken,
      unfilled_slots := st.required_headcount - (taken.length : Int),
      is_fully_staffed := st.required_headcount - ((taken.length : Int) : Int) == 0 }
    with hanew
  have hres : processStation emps w stats? acc st =
      (upsertBy Assignment.station_id acc.1 anew,
       taken.foldl (fun l e => l.erase e) acc.2) := by
    simp only [processStation, assignLoop_eq, List.nil_append]
  have hupsert : upsertBy Assignment.station_id acc.1 anew = acc.1 ++ [anew] := by
    refine upsertBy_of_key_not_mem _ _ _ fun y hy heq => hkey ?_
    have hsidy : y.station_id = st.id := heq
    exact hsidy ▸ List.mem_map_of_mem Assignment.station_id hy
  have havail' : taken.foldl (fun l e => l.erase e) acc.2
      = acc.2.filter (fun a => !taken.contains a) :=
    foldl_erase_eq_filter taken acc.2 havail_nodup
  have hq_nodup : q.Nodup := gq_nodup emps acc.2 w st stats? havail_nodup
  have htaken_nodup : taken.Nodup := (List.take_sublist _ _).nodup hq_nodup
  have htaken_sub_q : taken ⊆ q := List.take_subset _ _
  have htaken_sub : ∀ e ∈ taken, e ∈ acc.2 :=
    fun e he => gq_subset emps acc.2 w st stats? e (htaken_sub_q he)
  have hfilter_sub : ∀ e ∈ acc.2.filter (fun a => !taken.contains a), e ∈ acc.2 :=
    fun e he => (List.mem_filter.mp he).1
  have hmem_filter_iff : ∀ e, e ∈ acc.2.filter (fun a => !taken.contains a)
      ↔ e ∈ acc.2 ∧ e ∉ taken := by
    intro e
    rw [List.mem_filter]
    simp [List.elem_iff, List.contains]
  rw [hres, hupsert]
  refine ⟨by simp, ?_, ?_, ?_, ?_, ?_⟩
  · -- the flattened assigned ids together with the available set stay duplicate-free
    have h1 : (acc.1.flatMap Assignment.assigned_employee_ids ++ taken).Nodup := by
      rw [List.nodup_append]
      exact ⟨hflat_nodup, htaken_nodup,
        fun x hx1 hx2 => hdisj hx1 (htaken_sub _ hx2)⟩
    have hfm : ([anew] : List Assignment).flatMap Assignment.assigned_employee_ids
        = taken := by simp
    rw [List.flatMap_append, hfm, havail', List.nodup_append]
    refine ⟨h1, (List.filter_sublist _).nodup havail_nodup, ?_⟩
    intro x hx1 hx2
    rw [hmem_filter_iff] at hx2
    rcases List.mem_append.mp hx1 with hxf | hxt
    · exact hdisj hxf hx2.1
    · exact hx2.2 hxt
  · rw [havail']
    exact fun e he => hsub e (hfilter_sub e he)
  · intro a ha e he
    rcases List.mem_append.mp ha with ha1 | ha2
    · exact hqual a ha1 e he
    · have : a = anew := by simpa using ha2
      subst this
      have heq : e ∈ q := htaken_sub_q (by simpa using he)
      have := gq_qualified emps stations acc.2 w st stats? hsn hst e heq
      simpa using this
  · exact fun a ha => List.mem_append_left _ ha
  · refine ⟨anew, List.mem_append_right _ (by simp), rfl, rfl, ?_, ?_⟩
    · show (st.required_headcount - (taken.length : Int) == 0) = true
        ↔ st.required_headcount - (taken.length : Int) = 0
      exact beq_iff_eq
    · intro hpos
      show (taken.length : Int) ≤ st.required_headcount
      have hlen : taken.length ≤ st.required_headcount.toNat := by
        rw [htaken, List.length_take]
        omega
      omega

/-- The whole station fold of `generate_schedule` preserves the
allocation invariants, assigns each processed station exactly once and
in a well-formed way. -/
theorem processStations_fold
    (emps : List Employee) (stations : List Station) (w : ScenarioWeights)
    (stats? : Option StatsMap) (hsn : (stations.map Station.id).Nodup) :
    ∀ (todo : List Station) (acc : List Assignment × List String),
      (∀ st ∈ todo, st ∈ stations) →
      (acc.1.map Assignment.station_id ++ todo.map Station.id).Nodup →
      (acc.1.flatMap Assignment.assigned_employee_ids ++ acc.2).Nodup →
      (∀ e ∈ acc.2, e ∈ emps.map Employee.id) →
      (∀ a ∈ acc.1, ∀ e ∈ a.assigned_employee_ids,
          is_qualified_core emps stations e a.station_id = true) →
      (todo.foldl (processStation emps w stats?) acc).1.map Assignment.station_id
          = acc.1.map Assignment.station_id ++ todo.map Station.id
        ∧ ((todo.foldl (processStation emps w stats?) acc).1.flatMap
              Assignment.assigned_employee_ids
            ++ (todo.foldl (processStation emps w stats?) acc).2).Nodup
        ∧ (∀ e ∈ (todo.foldl (processStation emps w stats?) acc).2,
            e ∈ emps.map Employee.id)
        ∧ (∀ a ∈ (todo.foldl (processStation emps w stats?) acc).1,
            ∀ e ∈ a.assigned_employee_ids,
              is_qualified_core emps stations e a.station_id = true)
        ∧ (∀ a ∈ acc.1, a ∈ (todo.foldl (processStation emps w stats?) acc).1)
        ∧ (∀ st ∈ todo, ∃ a ∈ (todo.foldl (processStation emps w stats?) acc).1,
            assignmentMatches st a)
  | [], acc, _, hkeys, hnd, hsub, hqual => by
    refine ⟨by simp, hnd, hsub, hqual, fun a ha => ha, by simp⟩
  | st :: todo, acc, hmem, hkeys, hnd, hsub, hqual => by
    have hkey : st.id ∉ acc.1.map Assignment.station_id := by
      rw [List.nodup_append] at hkeys
      exact fun hmem' => hkeys.2.2 hmem' (by simp)
    obtain ⟨skeys, snd, ssub, squal, spres, sex⟩ :=
      processStation_step emps stations w stats? st acc hsn (hmem st (by simp))
        hkey hnd hsub hqual
    have hkeys' : ((processStation emps w stats? acc st).1.map Assignment.station_id
        ++ todo.map Station.id).Nodup := by
      rw [skeys]
      simpa [List.append_assoc] using hkeys
    obtain ⟨fkeys, fnd, fsub, fqual, fpres, fex⟩ :=
      processStations_fold emps stations w stats? hsn todo
        (processStation emps w stats? acc st)
        (fun x hx => hmem x (by simp [hx])) hkeys' snd ssub squal
    refine ⟨?_, fnd, fsub, fqual, ?_, ?_⟩
    · rw [List.foldl_cons, fkeys, skeys]
      simp
    · intro a ha
      rw [List.foldl_cons]
      exact fpres a (spres a ha)
    · intro x hx
      rcases List.mem_cons.mp hx with rfl | hx'
      · rcases sex with ⟨a, ha, hm⟩
        exact ⟨a, by rw [List.foldl_cons]; exact fpres a ha, hm⟩
      · rw [List.foldl_cons]
        exact fex x hx'

/-! ## Well-formedness invariant and reachable states -/

/-- Invariants of a scheduler state: dict keys are unique, the sets are
duplicate-free, the available set only holds known employees, every
assignment belongs to a known station, no employee is assigned twice,
assigned employees are not available, and every assigned employee is
qualified for their station. -/
structure WF (s : SchedState) : Prop where
  stations_nodup : (s.stations.map Station.id).Nodup
  employees_nodup : (s.employees.map Employee.id).Nodup
  avail_nodup : s.available_employees.Nodup
  avail_sub : ∀ e ∈ s.available_employees, e ∈ s.employees.map Employee.id
  absent_nodup : s.absent_employees.Nodup
  assign_keys_nodup : (s.assignments.map Assignment.station_id).Nodup
  assign_keys_sub : ∀ a ∈ s.assignments, a.station_id ∈ s.stations.map Station.id
  assigned_nodup : (s.assignments.flatMap Assignment.assigned_employee_ids).Nodup
  assigned_not_avail : ∀ a ∈ s.assignments, ∀ e ∈ a.assigned_employee_ids,
      e ∉ s.available_employees
  assigned_qualified : ∀ a ∈ s.assignments, ∀ e ∈ a.assigned_employee_ids,
      is_qualified_core s.employees s.stations e a.station_id = true

theorem WF_init (stations : List Station) (employees : List Employee) :
    WF (initScheduler stations employees) := by
  refine ⟨?_, ?_, ?_, ?_, ?_, ?_, ?_, ?_, ?_, ?_⟩ <;>
    simp [initScheduler, dictValues_keys_nodup]

theorem WF_set_scenario (s : SchedState) (w : ScenarioWeights) (h : WF s) :
    WF { s with scenario := w } :=
  { stations_nodup := h.stations_nodup
    employees_nodup := h.employees_nodup
    avail_nodup := h.avail_nodup
    avail_sub := h.avail_sub
    absent_nodup := h.absent_nodup
    assign_keys_nodup := h.assign_keys_nodup
    assign_keys_sub := h.assign_keys_sub
    assigned_nodup := h.assigned_nodup
    assigned_not_avail := h.assigned_not_avail
    assigned_qualified := h.assigned_qualified }

theorem WF_generate_core (today : Date) (s : SchedState) (h : WF s) :
    WF (generate_schedule_core today s) := by
  have hperm := List.perm_insertionSort stationGE s.stations
  have hkeys0 : ((List.insertionSort stationGE s.stations).map Station.id).Nodup :=
    (hperm.map Station.id).nodup_iff.mpr h.stations_nodup
  have havail0 : ((s.employees.map Employee.id).filter
      (fun e => !(s.absent_employees.contains e))).Nodup :=
    (List.filter_sublist _).nodup h.employees_nodup
  obtain ⟨fkeys, fnd, fsub, fqual, -, -⟩ :=
    processStations_fold s.employees s.stations s.scenario
      (if s.assignment_logs.isEmpty then none
        else some (build_rotation_stats today 30 s.assignment_logs))
      h.stations_nodup
      (List.insertionSort stationGE s.stations)
      ([], (s.employees.map Employee.id).filter
          (fun e => !(s.absent_employees.contains e)))
      (fun st hst => hperm.subset hst)
      (by simpa using hkeys0)
      (by simpa using havail0)
      (fun e he => (List.mem_filter.mp he).1)
      (by simp)
  refine ⟨h.stations_nodup, h.employees_nodup, ?_, ?_, h.absent_nodup, ?_, ?_, ?_, ?_, ?_⟩
  · exact (List.nodup_append.mp fnd).2.1
  · exact fsub
  · rw [show (generate_schedule_core today s).assignments
        = (List.foldl (processStation s.employees s.scenario
            (if s.assignment_logs.isEmpty then none
              else some (build_rotation_stats today 30 s.assignment_logs)))
          ([], (s.employees.map Employee.id).filter
              (fun e => !(s.absent_employees.contains e)))
          (List.insertionSort stationGE s.stations)).1 from rfl]
    rw [fkeys]
    simpa using hkeys0
  · intro a ha
    have : a.station_id ∈ ((List.foldl (processStation s.employees s.scenario
        (if s.assignment_logs.isEmpty then none
          else some (build_rotation_stats today 30 s.assignment_logs)))
        ([], (s.employees.map Employee.id).filter
            (fun e => !(s.absent_employees.contains e)))
        (List.insertionSort stationGE s.stations)).1.map Assignment.station_id) :=
      List.mem_map_of_mem Assignment.station_id ha
    rw [fkeys] at this
    simp only [List.map_nil, List.nil_append] at this
    exact (hperm.map Station.id).subset this
  · exact (List.nodup_append.mp fnd).1
  · intro a ha e he hmem
    exact (List.nodup_append.mp fnd).2.2 (List.mem_flatMap.mpr ⟨a, ha, he⟩) hmem
  · exact fqual

theorem WF_generate (today : Date) (s : SchedState) (sc : Option ScenarioWeights)
    (h : WF s) : WF (generate_schedule today s sc) := by
  cases sc with
  | none => exact WF_generate_core today s h
  | some w => exact WF_generate_core today _ (WF_set_scenario s w h)

/-! ## The rebalance loop -/

/-- A successful `find?` splits its list at the found element, with the
predicate failing on everything before it. -/
theorem find?_eq_some_split {α : Type} (p : α → Bool) :
    ∀ (l : List α) (a : α), l.find? p = some a →
      ∃ l1 l2, l = l1 ++ a :: l2 ∧ ∀ b ∈ l1, p b = false
  | [], a, h => by simp at h
  | x :: l, a, h => by
    rcases hx : p x with _ | _
    · rw [List.find?_cons, hx] at h
      obtain ⟨l1, l2, rfl, hl1⟩ := find?_eq_some_split p l a h
      refine ⟨x :: l1, l2, rfl, ?_⟩
      intro b hb
      rcases List.mem_cons.mp hb with rfl | hb'
      · exact hx
      · exact hl1 b hb'
    · rw [List.find?_cons, hx] at h
      obtain rfl := Option.some.inj h
      exact ⟨[], l, rfl, by simp⟩

/-- Replacing by key in a dict whose keys fail for everything but the
split point only touches the split point. -/
theorem map_replace_split (sid : String) (a2 : Assignment)
    (l1 l2 : List Assignment) (a : Assignment)
    (h1 : ∀ b ∈ l1, (b.station_id == sid) = false) (ha : a.station_id = sid)
    (h2 : ∀ b ∈ l2, (b.station_id == sid) = false) :
    (l1 ++ a :: l2).map (fun b => if b.station_id == sid then a2 else b)
      = l1 ++ a2 :: l2 := by
  rw [List.map_append, List.map_cons]
  have e1 : l1.map (fun b => if b.station_id == sid then a2 else b) = l1 := by
    rw [show l1.map (fun b => if b.station_id == sid then a2 else b) = l1.map id from
      List.map_congr_left fun b hb => by rw [h1 b hb]; rfl]
    exact List.map_id l1
  have e2 : l2.map (fun b => if b.station_id == sid then a2 else b) = l2 := by
    rw [show l2.map (fun b => if b.station_id == sid then a2 else b) = l2.map id from
      List.map_congr_left fun b hb => by rw [h2 b hb]; rfl]
    exact List.map_id l2
  rw [e1, e2, if_pos (by simp [ha])]

/-- The `while unfilled_slots > 0` loop of `rebalance_schedule`
preserves the allocation invariants: the available set stays
duplicate-free and shrinks, assigned employees leave the available set,
stay distinct and disjoint from every other assignment, and arrivals
are qualified for the station. -/
theorem rebalanceLoop_inv
    (emps : List Employee) (stations : List Station) (w : ScenarioWeights)
    (station : Station) (hsn : (stations.map Station.id).Nodup)
    (hstm : station ∈ stations) :
    ∀ (fuel : Nat) (avail : List String) (a : Assignment) (others : List String),
      avail.Nodup →
      (∀ e ∈ avail, e ∈ emps.map Employee.id) →
      (∀ e ∈ a.assigned_employee_ids, e ∉ avail) →
      (∀ e ∈ avail, e ∉ others) →
      (others ++ a.assigned_employee_ids).Nodup →
      (∀ e ∈ a.assigned_employee_ids,
          is_qualified_core emps stations e station.id = true) →
      (rebalanceLoop emps w station fuel avail a).1.Nodup
        ∧ (∀ e ∈ (rebalanceLoop emps w station fuel avail a).1,
            e ∈ emps.map Employee.id)
        ∧ (∀ e ∈ (rebalanceLoop emps w station fuel avail a).2.assigned_employee_ids,
            e ∉ (rebalanceLoop emps w station fuel avail a).1)
        ∧ (∀ e ∈ (rebalanceLoop emps w station fuel avail a).1, e ∉ others)
        ∧ (others ++ (rebalanceLoop emps w station fuel avail a).2.assigned_employee_ids).Nodup
        ∧ (∀ e ∈ (rebalanceLoop emps w station fuel avail a).2.assigned_employee_ids,
            is_qualified_core emps stations e station.id = true)
        ∧ (rebalanceLoop emps w station fuel avail a).2.station_id = a.station_id
        ∧ (∀ e ∈ (rebalanceLoop emps w station fuel avail a).1, e ∈ avail)
  | 0, avail, a, others, h1, h2, h3, h4, h5, h6 =>
    ⟨h1, h2, h3, h4, h5, h6, rfl, fun _ he => he⟩
  | fuel + 1, avail, a, others, h1, h2, h3, h4, h5, h6 => by
    rw [rebalanceLoop]
    by_cases hslots : a.unfilled_slots ≤ 0
    · rw [if_pos hslots]
      exact ⟨h1, h2, h3, h4, h5, h6, rfl, fun _ he => he⟩
    · rw [if_neg hslots]
      rcases hqe : get_qualified_employees emps avail w station none with _ | ⟨e, rest⟩
      · exact ⟨h1, h2, h3, h4, h5, h6, rfl, fun _ he => he⟩
      · have he_q : e ∈ get_qualified_employees emps avail w station none := by
          rw [hqe]; simp
        have he_avail : e ∈ avail := gq_subset emps avail w station none e he_q
        have he_qual : is_qualified_core emps stations e station.id = true :=
          gq_qualified emps stations avail w station none hsn hstm e he_q
        have he_not_assigned : e ∉ a.assigned_employee_ids :=
          fun hmem => h3 e hmem he_avail
        have he_not_others : e ∉ others := h4 e he_avail
        have h5' : (others ++ (a.assigned_employee_ids ++ [e])).Nodup := by
          rw [List.nodup_append] at h5 ⊢
          refine ⟨h5.1, ?_, ?_⟩
          · rw [List.nodup_append]
            refine ⟨h5.2.1, List.nodup_singleton e, fun x hx hx' => ?_⟩
            have hxe : x = e := by simpa using hx'
            exact he_not_assigned (hxe ▸ hx)
          · intro x hx hx'
            rcases List.mem_append.mp hx' with hxa | hxe
            · exact h5.2.2 hx hxa
            · have : x = e := by simpa using hxe
              exact he_not_others (this ▸ hx)
        obtain ⟨g1, g2, g3, g4, g5, g6, g7, g8⟩ :=
          rebalanceLoop_inv emps stations w station hsn hstm fuel (avail.erase e)
            { a with assigned_employee_ids := a.assigned_employee_ids ++ [e],
                     unfilled_slots := a.unfilled_slots - 1 } others
            (h1.erase e)
            (fun x hx => h2 x ((List.erase_sublist e avail).subset hx))
            (by
              intro x hx
              rcases List.mem_append.mp hx with hxa | hxe
              · exact fun hmem => h3 x hxa ((List.erase_sublist e avail).subset hmem)
              · have hx' : x = e := by simpa using hxe
                subst hx'
                rw [h1.mem_erase_iff]
                exact fun hc => hc.1 rfl)
            (fun x hx => h4 x ((List.erase_sublist e avail).subset hx))
            h5'
            (by
              intro x hx
              rcases List.mem_append.mp hx with hxa | hxe
              · exact h6 x hxa
              · have hx' : x = e := by simpa using hxe
                exact hx' ▸ he_qual)
        exact ⟨g1, g2, g3, g4, g5, g6, g7,
          fun x hx => (List.erase_sublist e avail).subset (g8 x hx)⟩

theorem nodup_rotate_mid {x y z : List String}
    (h : (x ++ (y ++ z)).Nodup) : ((x ++ z) ++ y).Nodup := by
  have h2 : (x ++ (y ++ z)).Perm (x ++ (z ++ y)) :=
    (@List.perm_append_comm _ y z).append_left x
  have h3 := h2.nodup h
  rw [← List.append_assoc] at h3
  exact h3

theorem nodup_rotate_mid_rev {x y z : List String}
    (h : ((x ++ z) ++ y).Nodup) : (x ++ (y ++ z)).Nodup := by
  rw [List.append_assoc] at h
  have h2 : (x ++ (z ++ y)).Perm (x ++ (y ++ z)) :=
    (@List.perm_append_comm _ z y).append_left x
  exact h2.nodup h

/-- Well-formedness is preserved by the post-lookup body of
`rebalance_schedule` when an assignment entry for the station is in
place. -/
theorem WF_rebalance_found (s : SchedState) (sid : String) (h : WF s)
    (station : Station) (hsid : station.id = sid) (hstm : station ∈ s.stations)
    (a : Assignment) (l1 l2 : List Assignment)
    (hsplit : s.assignments = l1 ++ a :: l2)
    (hl1 : ∀ b ∈ l1, (b.station_id == sid) = false)
    (hasid : a.station_id = sid) :
    WF { s with
      available_employees := (rebalanceLoop s.employees s.scenario station
        a.unfilled_slots.toNat s.available_employees a).1,
      assignments := s.assignments.map (fun b =>
        if b.station_id == sid then
          { (rebalanceLoop s.employees s.scenario station
              a.unfilled_slots.toNat s.available_employees a).2 with
            is_fully_staffed := ((rebalanceLoop s.employees s.scenario station
              a.unfilled_slots.toNat s.available_employees a).2.unfilled_slots == 0) }
        else b) } := by
  have ha_mem : a ∈ s.assignments := by
    rw [hsplit]; exact List.mem_append_right _ (by simp)
  have hl2 : ∀ b ∈ l2, (b.station_id == sid) = false := by
    have hk := h.assign_keys_nodup
    rw [hsplit, List.map_append, List.map_cons, List.nodup_append] at hk
    have hcons := hk.2.1
    rw [List.nodup_cons] at hcons
    intro b hb
    rw [beq_eq_false_iff_ne]
    intro heq
    exact hcons.1 (by
      rw [hasid] at *
      exact heq ▸ List.mem_map_of_mem Assignment.station_id hb)
  have hflat := h.assigned_nodup
  rw [hsplit, List.flatMap_append, List.flatMap_cons] at hflat
  obtain ⟨g1, g2, g3, g4, g5, g6, g7, g8⟩ :=
    rebalanceLoop_inv s.employees s.stations s.scenario station h.stations_nodup hstm
      a.unfilled_slots.toNat s.available_employees a
      (l1.flatMap Assignment.assigned_employee_ids
        ++ l2.flatMap Assignment.assigned_employee_ids)
      h.avail_nodup h.avail_sub
      (fun e he => h.assigned_not_avail a ha_mem e he)
      (by
        intro e he hmem
        rcases List.mem_append.mp hmem with h1' | h2'
        · rcases List.mem_flatMap.mp h1' with ⟨b, hb, hbe⟩
          exact h.assigned_not_avail b (by rw [hsplit]; exact List.mem_append_left _ hb)
            e hbe he
        · rcases List.mem_flatMap.mp h2' with ⟨b, hb, hbe⟩
          exact h.assigned_not_avail b
            (by rw [hsplit]; exact List.mem_append_right _ (by simp [hb])) e hbe he)
      (nodup_rotate_mid hflat)
      (by
        intro e he
        have := h.assigned_qualified a ha_mem e he
        rw [hasid, ← hsid] at this
        exact this)
  set r := rebalanceLoop s.employees s.scenario station
    a.unfilled_slots.toNat s.available_employees a with hr
  set a2 : Assignment :=
    { r.2 with is_fully_staffed := (r.2.unfilled_slots == 0) } with ha2
  have ha2sid : a2.station_id = sid := by
    rw [ha2]
    show r.2.station_id = sid
    rw [g7, hasid]
  have hassign : s.assignments.map (fun b => if b.station_id == sid then a2 else b)
      = l1 ++ a2 :: l2 := by
    rw [hsplit]
    exact map_replace_split sid a2 l1 l2 a hl1 hasid hl2
  have ha2assigned : a2.assigned_employee_ids = r.2.assigned_employee_ids := rfl
  refine ⟨h.stations_nodup, h.employees_nodup, g1, g2, h.absent_nodup, ?_, ?_, ?_, ?_, ?_⟩
  · show ((s.assignments.map fun b => if b.station_id == sid then a2 else b).map
        Assignment.station_id).Nodup
    rw [hassign]
    have hk := h.assign_keys_nodup
    rw [hsplit] at hk
    rw [List.map_append, List.map_cons] at hk ⊢
    rw [ha2sid, ← hasid]
    exact hk
  · intro b hb
    show b.station_id ∈ s.stations.map Station.id
    rw [hassign] at hb
    rcases List.mem_append.mp hb with hb1 | hb2
    · exact h.assign_keys_sub b (by rw [hsplit]; exact List.mem_append_left _ hb1)
    · rcases List.mem_cons.mp hb2 with rfl | hb3
      · rw [ha2sid, ← hsid]
        exact List.mem_map_of_mem Station.id hstm
      · exact h.assign_keys_sub b
          (by rw [hsplit]; exact List.mem_append_right _ (by simp [hb3]))
  · show ((s.assignments.map fun b => if b.station_id == sid then a2 else b).flatMap
        Assignment.assigned_employee_ids).Nodup
    rw [hassign, List.flatMap_append, List.flatMap_cons, ha2assigned]
    exact nodup_rotate_mid_rev g5
  · intro b hb e he
    rw [hassign] at hb
    show e ∉ r.1
    rcases List.mem_append.mp hb with hb1 | hb2
    · intro hin
      exact g4 e hin (List.mem_append_left _ (List.mem_flatMap.mpr ⟨b, hb1, he⟩))
    · rcases List.mem_cons.mp hb2 with rfl | hb3
      · exact g3 e he
      · intro hin
        exact g4 e hin (List.mem_append_right _ (List.mem_flatMap.mpr ⟨b, hb3, he⟩))
  · intro b hb e he
    rw [hassign] at hb
    show is_qualified_core s.employees s.stations e b.station_id = true
    rcases List.mem_append.mp hb with hb1 | hb2
    · exact h.assigned_qualified b (by rw [hsplit]; exact List.mem_append_left _ hb1) e he
    · rcases List.mem_cons.mp hb2 with rfl | hb3
      · rw [ha2sid, ← hsid]
        exact g6 e he
      · exact h.assigned_qualified b
          (by rw [hsplit]; exact List.mem_append_right _ (by simp [hb3])) e he

theorem WF_rebalance (s : SchedState) (sid : String) (h : WF s) :
    WF (rebalance_schedule s sid).1 := by
  rcases hfind : s.stations.find? (fun st => st.id == sid) with _ | station
  · unfold rebalance_schedule
    rw [hfind]
    exact h
  · have hsid : station.id = sid := by
      have := List.find?_some hfind
      simpa using this
    have hstm : station ∈ s.stations := List.mem_of_find?_eq_some hfind
    rcases hfa : s.assignments.find? (fun a => a.station_id == sid) with _ | a
    · set a0 : Assignment :=
        { station_id := sid, assigned_employee_ids := [],
          is_fully_staffed := false, unfilled_slots := 0 } with ha0
      set s' : SchedState := { s with assignments := s.assignments ++ [a0] } with hs'
      have hl1 : ∀ b ∈ s.assignments, (b.station_id == sid) = false := by
        intro b hb
        have := List.find?_eq_none.mp hfa b hb
        simpa using this
      have hs'WF : WF s' := by
        refine ⟨h.stations_nodup, h.employees_nodup, h.avail_nodup, h.avail_sub,
          h.absent_nodup, ?_, ?_, ?_, ?_, ?_⟩
        · show ((s.assignments ++ [a0]).map Assignment.station_id).Nodup
          rw [List.map_append, List.nodup_append]
          refine ⟨h.assign_keys_nodup, by simp, ?_⟩
          intro x hx hx'
          rcases List.mem_map.mp hx with ⟨b, hb, rfl⟩
          have hx0 : b.station_id = a0.station_id := by simpa using hx'
          have := hl1 b hb
          rw [beq_eq_false_iff_ne] at this
          exact this (by simpa using hx0)
        · intro b hb
          rcases List.mem_append.mp hb with hb1 | hb2
          · exact h.assign_keys_sub b hb1
          · have : b = a0 := by simpa using hb2
            subst this
            show a0.station_id ∈ s.stations.map Station.id
            rw [ha0]
            exact hsid ▸ List.mem_map_of_mem Station.id hstm
        · show ((s.assignments ++ [a0]).flatMap Assignment.assigned_employee_ids).Nodup
          rw [List.flatMap_append]
          simpa using h.assigned_nodup
        · intro b hb e he
          rcases List.mem_append.mp hb with hb1 | hb2
          · exact h.assigned_not_avail b hb1 e he
          · have : b = a0 := by simpa using hb2
            subst this
            simp [ha0] at he
        · intro b hb e he
          rcases List.mem_append.mp hb with hb1 | hb2
          · exact h.assigned_qualified b hb1 e he
          · have : b = a0 := by simpa using hb2
            subst this
            simp [ha0] at he
      have hres : (rebalance_schedule s sid).1 = { s' with
          available_employees := (rebalanceLoop s'.employees s'.scenario station
            a0.unfilled_slots.toNat s'.available_employees a0).1,
          assignments := s'.assignments.map (fun b =>
            if b.station_id == sid then
              { (rebalanceLoop s'.employees s'.scenario station
                  a0.unfilled_slots.toNat s'.available_employees a0).2 with
                is_fully_staffed := ((rebalanceLoop s'.employees s'.scenario station
                  a0.unfilled_slots.toNat s'.available_employees a0).2.unfilled_slots == 0) }
            else b) } := by
        unfold rebalance_schedule
        rw [hfind]
        dsimp only
        rw [hfa]
      rw [hres]
      exact WF_rebalance_found s' sid hs'WF station hsid hstm a0 s.assignments []
        rfl hl1 rfl
    · obtain ⟨l1, l2, hsplit, hl1⟩ := find?_eq_some_split _ s.assignments a hfa
      have hasid : a.station_id = sid := by
        have := List.find?_some hfa
        simpa using this
      have hres : (rebalance_schedule s sid).1 = { s with
          available_employees := (rebalanceLoop s.employees s.scenario station
            a.unfilled_slots.toNat s.available_employees a).1,
          assignments := s.assignments.map (fun b =>
            if b.station_id == sid then
              { (rebalanceLoop s.employees s.scenario station
                  a.unfilled_slots.toNat s.available_employees a).2 with
                is_fully_staffed := ((rebalanceLoop s.employees s.scenario station
                  a.unfilled_slots.toNat s.available_employees a).2.unfilled_slots == 0) }
            else b) } := by
        unfold rebalance_schedule
        rw [hfind]
        dsimp only
        rw [hfa]
      rw [hres]
      exact WF_rebalance_found s sid h station hsid hstm a l1 l2 hsplit hl1 hasid

theorem WF_rebalanceAll :
    ∀ (ids : List String) (s : SchedState), WF s → WF (rebalanceAll s ids).1
  | [], s, h => h
  | sid :: rest, s, h => by
    rw [rebalanceAll]
    rcases hr : rebalance_schedule s sid with ⟨s1, r⟩
    have h1 : WF s1 := by
      have := WF_rebalance s sid h
      rw [hr] at this
      exact this
    cases r with
    | ok b => exact WF_rebalanceAll rest s1 h1
    | error e => exact h1

/-- `rebalance_schedule` never changes the station, employee, absent,
log or scenario components. -/
theorem rebalance_preserves (s : SchedState) (sid : String) :
    (rebalance_schedule s sid).1.stations = s.stations
      ∧ (rebalance_schedule s sid).1.employees = s.employees
      ∧ (rebalance_schedule s sid).1.absent_employees = s.absent_employees
      ∧ (rebalance_schedule s sid).1.assignment_logs = s.assignment_logs
      ∧ (rebalance_schedule s sid).1.scenario = s.scenario := by
  rcases hfind : s.stations.find? (fun st => st.id == sid) with _ | station
  · unfold rebalance_schedule
    rw [hfind]
    exact ⟨rfl, rfl, rfl, rfl, rfl⟩
  · unfold rebalance_schedule
    rw [hfind]
    dsimp only
    rcases hfa : s.assignments.find? (fun a => a.station_id == sid) with _ | a <;>
      rw [hfa] <;> exact ⟨rfl, rfl, rfl, rfl, rfl⟩

/-- Removing one employee from every assignment list only shrinks the
flattened assignment multiset. -/
theorem flatMap_map_sublist (f : Assignment → Assignment)
    (hf : ∀ b, ((f b).assigned_employee_ids).Sublist b.assigned_employee_ids) :
    ∀ l : List Assignment,
      ((l.map f).flatMap Assignment.assigned_employee_ids).Sublist
        (l.flatMap Assignment.assigned_employee_ids)
  | [] => by simp
  | b :: l => by
    rw [List.map_cons, List.flatMap_cons, List.flatMap_cons]
    exact (hf b).append (flatMap_map_sublist f hf l)

theorem WF_handle_absence (s : SchedState) (eid : String) (h : WF s) :
    WF (handle_absence s eid).1 := by
  rcases hany : s.employees.any (fun e => e.id == eid) with _ | _
  · unfold handle_absence
    rw [hany]
    exact h
  · have hres : (handle_absence s eid).1 =
        (rebalanceAll
          { s with
            absent_employees := setAdd s.absent_employees eid,
            available_employees := s.available_employees.erase eid,
            assignments := s.assignments.map fun a =>
              if a.assigned_employee_ids.contains eid then
                { a with assigned_employee_ids := a.assigned_employee_ids.erase eid,
                         unfilled_slots := a.unfilled_slots + 1,
                         is_fully_staffed := false }
              else a }
          ((s.assignments.filter
            (fun a => a.assigned_employee_ids.contains eid)).map
              Assignment.station_id)).1 := by
      unfold handle_absence
      rw [hany]
      rfl
    rw [hres]
    apply WF_rebalanceAll
    set f : Assignment → Assignment := fun a =>
      if a.assigned_employee_ids.contains eid then
        { a with assigned_employee_ids := a.assigned_employee_ids.erase eid,
                 unfilled_slots := a.unfilled_slots + 1,
                 is_fully_staffed := false }
      else a with hf
    have hfsid : ∀ b, (f b).station_id = b.station_id := by
      intro b
      rw [hf]
      by_cases hc : eid ∈ b.assigned_employee_ids <;> simp [hc]
    have hfsub : ∀ b, ((f b).assigned_employee_ids).Sublist b.assigned_employee_ids := by
      intro b
      rw [hf]
      by_cases hc : eid ∈ b.assigned_employee_ids
      · simpa [hc] using List.erase_sublist eid b.assigned_employee_ids
      · simp [hc]
    have hkeys : (s.assignments.map f).map Assignment.station_id
        = s.assignments.map Assignment.station_id := by
      rw [List.map_map]
      exact List.map_congr_left fun b _ => hfsid b
    refine ⟨h.stations_nodup, h.employees_nodup, h.avail_nodup.erase eid, ?_, ?_,
      ?_, ?_, ?_, ?_, ?_⟩
    · intro e he
      exact h.avail_sub e ((List.erase_sublist eid s.available_employees).subset he)
    · exact setAdd_nodup s.absent_employees eid h.absent_nodup
    · show ((s.assignments.map f).map Assignment.station_id).Nodup
      rw [hkeys]
      exact h.assign_keys_nodup
    · intro b hb
      rcases List.mem_map.mp hb with ⟨b0, hb0, rfl⟩
      show (f b0).station_id ∈ s.stations.map Station.id
      rw [hfsid b0]
      exact h.assign_keys_sub b0 hb0
    · exact (flatMap_map_sublist f hfsub s.assignments).nodup h.assigned_nodup
    · intro b hb e he hmem
      rcases List.mem_map.mp hb with ⟨b0, hb0, rfl⟩
      exact h.assigned_not_avail b0 hb0 e ((hfsub b0).subset he)
        ((List.erase_sublist eid s.available_employees).subset hmem)
    · intro b hb e he
      rcases List.mem_map.mp hb with ⟨b0, hb0, rfl⟩
      show is_qualified_core s.employees s.stations e (f b0).station_id = true
      rw [hfsid b0]
      exact h.assigned_qualified b0 hb0 e ((hfsub b0).subset he)

/-! ## Reachable states -/

/-- States reachable from a freshly constructed scheduler through the
engine operations. -/
inductive Reachable : SchedState → Prop where
  | init : ∀ (stations : List Station) (employees : List Employee),
      Reachable (initScheduler stations employees)
  | generate : ∀ (today : Date) (s : SchedState) (sc : Option ScenarioWeights),
      Reachable s → Reachable (generate_schedule today s sc)
  | absence : ∀ (s : SchedState) (eid : String),
      Reachable s → Reachable (handle_absence s eid).1
  | rebalance : ∀ (s : SchedState) (sid : String),
      Reachable s → Reachable (rebalance_schedule s sid).1

/-- Every reachable state satisfies the well-formedness invariant. -/
theorem Reachable_WF {s : SchedState} (h : Reachable s) : WF s := by
  induction h with
  | init stations employees => exact WF_init stations employees
  | generate today s sc _ ih => exact WF_generate today s sc ih
  | absence s eid _ ih => exact WF_handle_absence s eid ih
  | rebalance s sid _ ih => exact WF_rebalance s sid ih

/-! ## Claim theorems -/

theorem generate_core_matches (today : Date) (s : SchedState)
    (hsn : (s.stations.map Station.id).Nodup)
    (hen : (s.employees.map Employee.id).Nodup) :
    ∀ st ∈ s.stations, ∃ a ∈ (generate_schedule_core today s).assignments,
      assignmentMatches st a := by
  intro st hst
  have hperm := List.perm_insertionSort stationGE s.stations
  have hkeys0 : ((List.insertionSort stationGE s.stations).map Station.id).Nodup :=
    (hperm.map Station.id).nodup_iff.mpr hsn
  have havail0 : ((s.employees.map Employee.id).filter
      (fun e => !(s.absent_employees.contains e))).Nodup :=
    (List.filter_sublist _).nodup hen
  obtain ⟨-, -, -, -, -, fex⟩ :=
    processStations_fold s.employees s.stations s.scenario
      (if s.assignment_logs.isEmpty then none
        else some (build_rotation_stats today 30 s.assignment_logs))
      hsn
      (List.insertionSort stationGE s.stations)
      ([], (s.employees.map Employee.id).filter
          (fun e => !(s.absent_employees.contains e)))
      (fun x hx => hperm.subset hx)
      (by simpa using hkeys0)
      (by simpa using havail0)
      (fun e he => (List.mem_filter.mp he).1)
      (by simp)
  exact fex st (hperm.mem_iff.mpr hst)

/-- C1: For every scheduler state and every station, after
`generate_schedule` returns, the station's assignment satisfies
`len(assigned_employee_ids) <= required_headcount` and
`unfilled_slots == required_headcount - len(assigned_employee_ids)`,
and `is_fully_staffed` is true iff `unfilled_slots == 0`.  The state
ranges over dict-valid states (unique station and employee ids), and
the headcount bound is stated for the data model's nonnegative
headcounts (`unfilled_slots` can be negative when
`required_headcount` is, in which case the subtraction identity and
the staffing flag still hold). -/
theorem C1_generate_schedule_staffing (today : Date) (s : SchedState)
    (sc : Option ScenarioWeights)
    (hsn : (s.stations.map Station.id).Nodup)
    (hen : (s.employees.map Employee.id).Nodup)
    (st : Station) (hst : st ∈ s.stations) :
    ∃ a ∈ (generate_schedule today s sc).assignments,
      a.station_id = st.id
        ∧ a.unfilled_slots = st.required_headcount - (a.assigned_employee_ids.length : Int)
        ∧ (a.is_fully_staffed = true ↔ a.unfilled_slots = 0)
        ∧ (0 ≤ st.required_headcount →
            (a.assigned_employee_ids.length : Int) ≤ st.required_headcount) := by
  cases sc with
  | none => exact generate_core_matches today s hsn hen st hst
  | some w => exact generate_core_matches today { s with scenario := w } hsn hen st hst

/-- Worked fixture from the specification's testable-properties
section: a critical station (skill 3, headcount 2), a general station
(skill 1, headcount 1), Alice competent at both, Bob only at the
general one. -/
def fixAlice : Employee :=
  { id := "alice", name := "Alice",
    station_competencies := [("crit", 3), ("gen", 3)], certification_level := 0 }

def fixBob : Employee :=
  { id := "bob", name := "Bob",
    station_competencies := [("crit", 1), ("gen", 2)], certification_level := 0 }

def fixCritical : Station :=
  { id := "crit", name := "Critical", required_skill_level := 3,
    required_headcount := 2, required_certification := 0 }

def fixGeneral : Station :=
  { id := "gen", name := "General", required_skill_level := 1,
    required_headcount := 1, required_certification := 0 }

def fixState : SchedState := initScheduler [fixCritical, fixGeneral] [fixAlice, fixBob]

def fixToday : Date := { year := 2026, month := 10, day := 12 }

theorem C1_generate_schedule_staffing_witness :
    ∃ a ∈ (generate_schedule fixToday fixState none).assignments,
      a.station_id = fixCritical.id
        ∧ a.unfilled_slots
            = fixCritical.required_headcount - (a.assigned_employee_ids.length : Int)
        ∧ (a.is_fully_staffed = true ↔ a.unfilled_slots = 0)
        ∧ (0 ≤ fixCritical.required_headcount →
            (a.assigned_employee_ids.length : Int) ≤ fixCritical.required_headcount) :=
  C1_generate_schedule_staffing fixToday fixState none (by decide) (by decide)
    fixCritical (by decide)

/-- A duplicate-free flattening means each block is duplicate-free and
blocks are pairwise disjoint. -/
theorem nodup_flatMap_decomp :
    ∀ l : List Assignment,
      (l.flatMap Assignment.assigned_employee_ids).Nodup →
      (∀ a ∈ l, a.assigned_employee_ids.Nodup)
        ∧ l.Pairwise (fun a b =>
            ∀ e ∈ a.assigned_employee_ids, e ∉ b.assigned_employee_ids)
  | [], _ => ⟨by simp, by simp⟩
  | a :: l, h => by
    rw [List.flatMap_cons, List.nodup_append] at h
    obtain ⟨ih1, ih2⟩ := nodup_flatMap_decomp l h.2.1
    refine ⟨?_, ?_⟩
    · intro b hb
      rcases List.mem_cons.mp hb with rfl | hb'
      · exact h.1
      · exact ih1 b hb'
    · rw [List.pairwise_cons]
      refine ⟨?_, ih2⟩
      intro b hb e he hbe
      exact h.2.2 he (List.mem_flatMap.mpr ⟨b, hb, hbe⟩)

/-- C2: In every state reachable by the engine operations
(`generate_schedule`, `handle_absence`, `rebalance_schedule`, from a
freshly constructed scheduler), no employee id appears in more than one
station's `assigned_employee_ids` list, and no `assigned_employee_ids`
list contains a duplicate id. -/
theorem C2_no_double_booking (s : SchedState) (h : Reachable s) :
    (∀ a ∈ s.assignments, a.assigned_employee_ids.Nodup)
      ∧ s.assignments.Pairwise (fun a b =>
          ∀ e ∈ a.assigned_employee_ids, e ∉ b.assigned_employee_ids) :=
  nodup_flatMap_decomp s.assignments (Reachable_WF h).assigned_nodup

theorem C2_no_double_booking_witness :
    (∀ a ∈ (generate_schedule fixToday fixState none).assignments,
        a.assigned_employee_ids.Nodup)
      ∧ (generate_schedule fixToday fixState none).assignments.Pairwise (fun a b =>
          ∀ e ∈ a.assigned_employee_ids, e ∉ b.assigned_employee_ids) :=
  C2_no_double_booking (generate_schedule fixToday fixState none)
    (Reachable.generate fixToday fixState none
      (Reachable.init [fixCritical, fixGeneral] [fixAlice, fixBob]))

/-- Unfolding of a successful qualification check: the ids resolve to a
known employee and station, and the employee clears both gates. -/
theorem is_qualified_core_spec (emps : List Employee) (stations : List Station)
    (eid sid : String) (h : is_qualified_core emps stations eid sid = true) :
    ∃ emp ∈ emps, emp.id = eid ∧ ∃ st ∈ stations, st.id = sid
      ∧ emp.certification_level ≥ st.required_certification
      ∧ emp.get_competency sid ≥ st.required_skill_level := by
  unfold is_qualified_core at h
  rcases hfe : emps.find? (fun e => e.id == eid) with _ | emp <;> rw [hfe] at h
  · simp at h
  · rcases hfs : stations.find? (fun st => st.id == sid) with _ | st <;> rw [hfs] at h
    · simp at h
    · simp only [decide_eq_true_eq] at h
      refine ⟨emp, List.mem_of_find?_eq_some hfe, by simpa using List.find?_some hfe,
        st, List.mem_of_find?_eq_some hfs, by simpa using List.find?_some hfs,
        h.1, h.2⟩

/-- C3: In every reachable state (in particular after
`generate_schedule` and after any `rebalance_schedule`), every employee
id in a station's `assigned_employee_ids` belongs to an employee with
`certification_level >= required_certification` and competency at that
station (0 if unrated) `>= required_skill_level` of the assignment's
station. -/
theorem C3_assigned_are_qualified (s : SchedState) (h : Reachable s) :
    ∀ a ∈ s.assignments, ∀ e ∈ a.assigned_employee_ids,
      ∃ emp ∈ s.employees, emp.id = e ∧ ∃ st ∈ s.stations, st.id = a.station_id
        ∧ emp.certification_level ≥ st.required_certification
        ∧ emp.get_competency a.station_id ≥ st.required_skill_level := by
  intro a ha e he
  exact is_qualified_core_spec s.employees s.stations e a.station_id
    ((Reachable_WF h).assigned_qualified a ha e he)

def fixCritAssignment : Assignment :=
  { station_id := "crit", assigned_employee_ids := ["alice"],
    is_fully_staffed := false, unfilled_slots := 1 }

theorem C3_assigned_are_qualified_witness :
    ∃ emp ∈ (generate_schedule fixToday fixState none).employees, emp.id = "alice"
      ∧ ∃ st ∈ (generate_schedule fixToday fixState none).stations,
          st.id = fixCritAssignment.station_id
          ∧ emp.certification_level ≥ st.required_certification
          ∧ emp.get_competency fixCritAssignment.station_id
              ≥ st.required_skill_level :=
  C3_assigned_are_qualified (generate_schedule fixToday fixState none)
    (Reachable.generate fixToday fixState none
      (Reachable.init [fixCritical, fixGeneral] [fixAlice, fixBob]))
    fixCritAssignment (by decide) "alice" (by decide)

/-- C8: Restoring from a serialized snapshot reproduces the stations,
the employees with their competency maps, the assignment map, the
available set, the absent set, and the assignment-log history of every
reachable state.  (The active scenario is not part of the snapshot.) -/
theorem C8_snapshot_roundtrip (s : SchedState) (h : Reachable s) :
    (from_snapshot (to_snapshot s)).stations = s.stations
      ∧ (from_snapshot (to_snapshot s)).employees = s.employees
      ∧ (from_snapshot (to_snapshot s)).assignments = s.assignments
      ∧ (from_snapshot (to_snapshot s)).available_employees = s.available_employees
      ∧ (from_snapshot (to_snapshot s)).absent_employees = s.absent_employees
      ∧ (from_snapshot (to_snapshot s)).assignment_logs = s.assignment_logs := by
  have w := Reachable_WF h
  refine ⟨?_, ?_, ?_, ?_, ?_, ?_⟩
  · show dictValues Station.id s.stations = s.stations
    exact dictValues_eq_self Station.id s.stations w.stations_nodup
  · show dictValues Employee.id s.employees = s.employees
    exact dictValues_eq_self Employee.id s.employees w.employees_nodup
  · show s.assignments.foldl (upsertBy Assignment.station_id) [] = s.assignments
    have := foldl_upsertBy_eq_append Assignment.station_id s.assignments []
      (by simpa using w.assign_keys_nodup)
    simpa using this
  · show setOfList s.available_employees = s.available_employees
    exact setOfList_eq_self s.available_employees w.avail_nodup
  · show setOfList s.absent_employees = s.absent_employees
    exact setOfList_eq_self s.absent_employees w.absent_nodup
  · show ([] : List AssignmentLog) ++ s.assignment_logs = s.assignment_logs
    simp

theorem C8_snapshot_roundtrip_witness :
    (from_snapshot (to_snapshot (handle_absence
        (generate_schedule fixToday fixState none) "alice").1)).stations
        = (handle_absence (generate_schedule fixToday fixState none) "alice").1.stations
      ∧ (from_snapshot (to_snapshot (handle_absence
          (generate_schedule fixToday fixState none) "alice").1)).employees
        = (handle_absence (generate_schedule fixToday fixState none) "alice").1.employees
      ∧ (from_snapshot (to_snapshot (handle_absence
          (generate_schedule fixToday fixState none) "alice").1)).assignments
        = (handle_absence (generate_schedule fixToday fixState none) "alice").1.assignments
      ∧ (from_snapshot (to_snapshot (handle_absence
          (generate_schedule fixToday fixState none) "alice").1)).available_employees
        = (handle_absence
            (generate_schedule fixToday fixState none) "alice").1.available_employees
      ∧ (from_snapshot (to_snapshot (handle_absence
          (generate_schedule fixToday fixState none) "alice").1)).absent_employees
        = (handle_absence
            (generate_schedule fixToday fixState none) "alice").1.absent_employees
      ∧ (from_snapshot (to_snapshot (handle_absence
          (generate_schedule fixToday fixState none) "alice").1)).assignment_logs
        = (handle_absence
            (generate_schedule fixToday fixState none) "alice").1.assignment_logs :=
  C8_snapshot_roundtrip _
    (Reachable.absence (generate_schedule fixToday fixState none) "alice"
      (Reachable.generate fixToday fixState none
        (Reachable.init [fixCritical, fixGeneral] [fixAlice, fixBob])))

/-- C10: `is_qualified` is total at the public interface: an unknown
employee id or an unknown station id yields `false` rather than an
error. -/
theorem C10_is_qualified_total (s : SchedState) (eid sid : String)
    (h : eid ∉ s.employees.map Employee.id ∨ sid ∉ s.stations.map Station.id) :
    is_qualified s eid sid = false := by
  unfold is_qualified is_qualified_core
  rcases h with h | h
  · have hfe : s.employees.find? (fun e => e.id == eid) = none := by
      rw [List.find?_eq_none]
      intro e he hbeq
      refine h ?_
      have heq : e.id = eid := by simpa using hbeq
      exact heq ▸ List.mem_map_of_mem Employee.id he
    rw [hfe]
  · have hfs : s.stations.find? (fun st => st.id == sid) = none := by
      rw [List.find?_eq_none]
      intro st hst hbeq
      refine h ?_
      have heq : st.id = sid := by simpa using hbeq
      exact heq ▸ List.mem_map_of_mem Station.id hst
    rw [hfs]
    cases s.employees.find? (fun e => e.id == eid) <;> rfl

theorem C10_is_qualified_total_witness :
    is_qualified fixState "ghost" "crit" = false :=
  C10_is_qualified_total fixState "ghost" "crit" (Or.inl (by decide))

theorem except_isOk_map {α β : Type} (f : α → β) (r : Except String α) :
    (r.map f).isOk = r.isOk := by
  cases r <;> rfl

/-- When the station lookup succeeds, `rebalance_schedule` returns a
boolean, never an error. -/
theorem rebalance_ok_of_found (s : SchedState) (sid : String) (station : Station)
    (hf : s.stations.find? (fun st => st.id == sid) = some station) :
    ∃ b, (rebalance_schedule s sid).2 = Except.ok b := by
  unfold rebalance_schedule
  rw [hf]
  dsimp only
  rcases hfa : s.assignments.find? (fun a => a.station_id == sid) with _ | a <;>
    rw [hfa] <;> exact ⟨_, rfl⟩

/-- Rebalancing every station of a list of known stations never
raises. -/
theorem rebalanceAll_ok :
    ∀ (ids : List String) (s : SchedState),
      (∀ sid ∈ ids, sid ∈ s.stations.map Station.id) →
      (rebalanceAll s ids).2.isOk = true
  | [], _, _ => rfl
  | sid :: rest, s, hm => by
    rw [rebalanceAll]
    rcases List.mem_map.mp (hm sid (by simp)) with ⟨st, hst, hstid⟩
    have hfind : (s.stations.find? (fun x => x.id == sid)).isSome := by
      rw [List.find?_isSome]
      exact ⟨st, hst, by simp [hstid]⟩
    rcases hf : s.stations.find? (fun x => x.id == sid) with _ | station
    · rw [hf] at hfind
      simp at hfind
    · obtain ⟨b, hb⟩ := rebalance_ok_of_found s sid station hf
      rcases hr : rebalance_schedule s sid with ⟨s1, r⟩
      rw [hr] at hb
      dsimp only at hb
      subst hb
      have hstations : s1.stations = s.stations := by
        have := (rebalance_preserves s sid).1
        rw [hr] at this
        exact this
      exact rebalanceAll_ok rest s1 (fun x hx => by
        rw [hstations]
        exact hm x (by simp [hx]))

/-- A known employee id never makes `handle_absence` raise: every
affected station id is an assignment key, hence a known station, over
well-formed states. -/
theorem handle_absence_ok_of_known (s : SchedState) (w : WF s) (eid : String)
    (hany : (s.employees.any fun e => e.id == eid) = true) :
    (handle_absence s eid).2.isOk = true := by
  have hres : (handle_absence s eid).2 =
      ((rebalanceAll
        { s with
          absent_employees := setAdd s.absent_employees eid,
          available_employees := s.available_employees.erase eid,
          assignments := s.assignments.map fun a =>
            if a.assigned_employee_ids.contains eid then
              { a with assigned_employee_ids := a.assigned_employee_ids.erase eid,
                       unfilled_slots := a.unfilled_slots + 1,
                       is_fully_staffed := false }
            else a }
        ((s.assignments.filter
          (fun a => a.assigned_employee_ids.contains eid)).map
            Assignment.station_id)).2.map fun _ =>
              (s.assignments.filter
                (fun a => a.assigned_employee_ids.contains eid)).map
                  Assignment.station_id) := by
    unfold handle_absence
    rw [hany]
    rfl
  rw [hres, except_isOk_map]
  refine rebalanceAll_ok _ _ ?_
  intro x hx
  rcases List.mem_map.mp hx with ⟨a, ha, rfl⟩
  have ham : a ∈ s.assignments := (List.filter_sublist _).subset ha
  exact w.assign_keys_sub a ham

/-- C9: `handle_absence` fails (with the unknown-entity `ValueError`)
iff the employee id is unknown, `rebalance_schedule` fails iff the
station id is unknown, and a failing call leaves the state unchanged;
over reachable states. -/
theorem C9_unknown_entity (s : SchedState) (h : Reachable s) (eid sid : String) :
    ((handle_absence s eid).2.isOk = false ↔ eid ∉ s.employees.map Employee.id)
      ∧ ((handle_absence s eid).2.isOk = false → (handle_absence s eid).1 = s)
      ∧ ((rebalance_schedule s sid).2.isOk = false ↔ sid ∉ s.stations.map Station.id)
      ∧ ((rebalance_schedule s sid).2.isOk = false → (rebalance_schedule s sid).1 = s) := by
  have w := Reachable_WF h
  refine ⟨?_, ?_, ?_, ?_⟩
  case refine_3 =>
    rcases hf : s.stations.find? (fun st => st.id == sid) with _ | station
    · have hout : (rebalance_schedule s sid).2
          = Except.error ("Unknown station: " ++ sid) := by
        unfold rebalance_schedule
        rw [hf]
      rw [hout]
      have hnm : sid ∉ s.stations.map Station.id := by
        intro hmem
        rcases List.mem_map.mp hmem with ⟨st, hst, hstid⟩
        have := List.find?_eq_none.mp hf st hst
        simp [hstid] at this
      simp [Except.isOk, Except.toBool, hnm]
    · obtain ⟨b, hb⟩ := rebalance_ok_of_found s sid station hf
      rw [hb]
      have hmem : sid ∈ s.stations.map Station.id := by
        have hst : station ∈ s.stations := List.mem_of_find?_eq_some hf
        have hid : station.id = sid := by simpa using List.find?_some hf
        exact hid ▸ List.mem_map_of_mem Station.id hst
      simp [Except.isOk, Except.toBool, hmem]
  case refine_4 =>
    rcases hf : s.stations.find? (fun st => st.id == sid) with _ | station
    · intro _
      unfold rebalance_schedule
      rw [hf]
    · obtain ⟨b, hb⟩ := rebalance_ok_of_found s sid station hf
      rw [hb]
      intro hfalse
      simp [Except.isOk, Except.toBool] at hfalse
  all_goals rcases hany : s.employees.any (fun e => e.id == eid) with _ | _
  case refine_1.false =>
    have hout : (handle_absence s eid).2
        = Except.error ("Unknown employee: " ++ eid) := by
      unfold handle_absence
      rw [hany]
      rfl
    rw [hout]
    have hnm : eid ∉ s.employees.map Employee.id := by
      intro hmem
      rcases List.mem_map.mp hmem with ⟨e, he, heid⟩
      have hne : ¬ (s.employees.any fun e => e.id == eid) = true := by
        rw [hany]; simp
      exact hne (List.any_eq_true.mpr ⟨e, he, by simp [heid]⟩)
    simp [Except.isOk, Except.toBool, hnm]
  case refine_2.false =>
    intro _
    unfold handle_absence
    rw [hany]
    rfl
  case refine_1.true =>
    have hmem : eid ∈ s.employees.map Employee.id := by
      rcases List.any_eq_true.mp hany with ⟨e, he, hbeq⟩
      have heid : e.id = eid := by simpa using hbeq
      exact heid ▸ List.mem_map_of_mem Employee.id he
    rw [handle_absence_ok_of_known s w eid hany]
    simp [hmem]
  case refine_2.true =>
    intro hfalse
    rw [handle_absence_ok_of_known s w eid hany] at hfalse
    simp at hfalse

theorem C9_unknown_entity_witness :
    (((handle_absence fixState "ghost").2.isOk = false
        ↔ "ghost" ∉ fixState.employees.map Employee.id)
      ∧ ((handle_absence fixState "ghost").2.isOk = false
          → (handle_absence fixState "ghost").1 = fixState)
      ∧ ((rebalance_schedule fixState "nowhere").2.isOk = false
          ↔ "nowhere" ∉ fixState.stations.map Station.id)
      ∧ ((rebalance_schedule fixState "nowhere").2.isOk = false
          → (rebalance_schedule fixState "nowhere").1 = fixState)) :=
  C9_unknown_entity fixState
    (Reachable.init [fixCritical, fixGeneral] [fixAlice, fixBob]) "ghost" "nowhere"

def fixBadLog : AssignmentLog :=
  { log_date := "bad-date", employee_id := "e1", station_id := "s1", hours := 5 }

/-- C5 (counterexample): an entry whose date cannot be parsed is NOT
skipped entirely.  `"bad-date"` does not parse, compares above the
cutoff string `"2026-09-12"` lexicographically, and still contributes
its 5 hours and one assignment count to the `("e1", "s1")` aggregate;
only the recency update is skipped (`days_since_last` stays 999). -/
theorem C5_counterexample :
    parseDate "bad-date" = none
      ∧ build_rotation_stats fixToday 30 [fixBadLog]
        = [(("e1", "s1"),
            { employee_id := "e1", station_id := "s1", total_hours := 5,
              days_since_last := 999, assignment_count := 1 })] :=
  ⟨by decide,
   congrArg (fun q : ℚ => [(("e1", "s1"), RotationStats.mk "e1" "s1" q 999 1)])
     (by norm_num : (0 : ℚ) + 5 = 5)⟩

/-- C5 (amended): during rotation-statistics building, a log entry
whose date cannot be parsed never makes the computation fail and
contributes no recency update (`days_since_last` is left exactly as it
was, the 999 default for a fresh pair); if its date string compares
lexicographically below the cutoff string it is skipped entirely, but
if it compares at or above the cutoff string it still contributes its
hours and assignment count to the `(employee, station)` aggregate. -/
theorem C5_amended_malformed_entry (today : Date) (cutoff_str : String)
    (stats : StatsMap) (log : AssignmentLog)
    (hparse : parseDate log.log_date = none) :
    (strLt log.log_date cutoff_str = true →
        statsStep today cutoff_str stats log = stats)
      ∧ (strLt log.log_date cutoff_str = false →
          statsStep today cutoff_str stats log
            = statsInsert stats (log.employee_id, log.station_id)
                (let s0 := (stats.lookup (log.employee_id, log.station_id)).getD
                  { employee_id := log.employee_id, station_id := log.station_id,
                    total_hours := 0, days_since_last := 999, assignment_count := 0 }
                 { s0 with total_hours := s0.total_hours + log.hours,
                           assignment_count := s0.assignment_count + 1 })) := by
  constructor
  · intro hlt
    unfold statsStep
    rw [if_pos hlt]
  · intro hlt
    unfold statsStep
    rw [if_neg (by rw [hlt]; exact fun hc => Bool.noConfusion hc)]
    rcases hl : stats.lookup (log.employee_id, log.station_id) with _ | s0 <;>
      simp [hparse, hl]

theorem C5_amended_malformed_entry_witness :
    (strLt fixBadLog.log_date "2026-09-12" = true →
        statsStep fixToday "2026-09-12" [] fixBadLog = [])
      ∧ (strLt fixBadLog.log_date "2026-09-12" = false →
          statsStep fixToday "2026-09-12" [] fixBadLog
            = statsInsert [] (fixBadLog.employee_id, fixBadLog.station_id)
                (let s0 := (([] : StatsMap).lookup
                    (fixBadLog.employee_id, fixBadLog.station_id)).getD
                  { employee_id := fixBadLog.employee_id,
                    station_id := fixBadLog.station_id,
                    total_hours := 0, days_since_last := 999, assignment_count := 0 }
                 { s0 with total_hours := s0.total_hours + fixBadLog.hours,
                           assignment_count := s0.assignment_count + 1 })) :=
  C5_amended_malformed_entry fixToday "2026-09-12" [] fixBadLog (by decide)

/-- Modelled from the spec (§4.3 Priority Scorer): the priority of a
candidate as a single formula,
`skill_weight * skill_score + recency_weight * recency_score -
fatigue_weight * fatigue_score`, with
`skill_score = (competency + certification) / 6` (inverted under
`invert_skill`), `recency_score = min(days_since_last, 30) / 30` and
`fatigue_score = min(total_hours, 240) / 240` when the pair has
rotation stats, and `recency_score = 1`, `fatigue_score = 0` when it
does not. -/
def specPriority (w : ScenarioWeights) (stats : StatsMap)
    (station_id emp_id : String) (competency certification : Int) : ℚ :=
  w.skill_weight *
      (if w.invert_skill then 1 - ((competency + certification : Int) : ℚ) / 6
        else ((competency + certification : Int) : ℚ) / 6)
    + w.recency_weight *
        (match stats.lookup (emp_id, station_id) with
          | some rs => ((min rs.days_since_last 30 : Int) : ℚ) / 30
          | none => 1)
    - w.fatigue_weight *
        (match stats.lookup (emp_id, station_id) with
          | some rs => min rs.total_hours 240 / 240
          | none => 0)

/-- C6: with rotation stats present, every qualified candidate is
scored by exactly the spec's formula, and the candidates are returned
ordered by that priority descending (the ranked list is a permutation
of the scored qualified candidates, sorted by score). -/
theorem C6_priority_scoring (emps : List Employee) (avail : List String)
    (w : ScenarioWeights) (st : Station) (stats : StatsMap) :
    (∀ (eid : String) (comp cert : Int),
        priorityScore w stats st.id eid comp cert
          = specPriority w stats st.id eid comp cert)
      ∧ ∃ ranked : List (String × ℚ),
          get_qualified_employees emps avail w st (some stats) = ranked.map (·.1)
            ∧ ranked.Perm ((qualified_candidates emps avail st).map fun t =>
                (t.1, specPriority w stats st.id t.1 t.2.1 t.2.2))
            ∧ ranked.Pairwise (fun x y => y.2 ≤ x.2) := by
  have hformula : ∀ (eid : String) (comp cert : Int),
      priorityScore w stats st.id eid comp cert
        = specPriority w stats st.id eid comp cert := by
    intro eid comp cert
    unfold priorityScore specPriority
    rcases h : stats.lookup (eid, st.id) with _ | rs <;> simp [h]
  refine ⟨hformula, ?_⟩
  refine ⟨List.insertionSort scoredGE
    ((qualified_candidates emps avail st).map fun t =>
      (t.1, priorityScore w stats st.id t.1 t.2.1 t.2.2)), ?_, ?_, ?_⟩
  · rfl
  · refine (List.perm_insertionSort scoredGE _).trans ?_
    rw [show ((qualified_candidates emps avail st).map fun t =>
        (t.1, priorityScore w stats st.id t.1 t.2.1 t.2.2))
        = ((qualified_candidates emps avail st).map fun t =>
            (t.1, specPriority w stats st.id t.1 t.2.1 t.2.2)) from
      List.map_congr_left fun t _ => by rw [hformula]]
  · exact List.sorted_insertionSort scoredGE _

/-- Modelled from the spec (§4.3): with no rotation history, candidates
are ranked purely by `(certification_level, competency)` descending,
with the stable tie-break; the priority scorer does not appear. -/
def rank_by_certification_competency (employees : List Employee)
    (available : List String) (station : Station) : List String :=
  (List.insertionSort legacyGE
    (qualified_candidates employees available station)).map (·.1)

/-- Modelled from the spec (§4.3, §4.4): the per-station fill step when
the assignment log is empty — identical to `processStation` except that
the candidate list comes from the certification-then-competency
fallback and no scorer, scenario weights or rotation stats are
consulted. -/
def processStationFallback (employees : List Employee)
    (acc : List Assignment × List String) (station : Station) :
    List Assignment × List String :=
  let qualified := rank_by_certification_competency employees acc.2 station
  let res := assignLoop qualified station.required_headcount [] acc.2
  let a : Assignment :=
    { station_id := station.id, assigned_employee_ids := res.1,
      unfilled_slots := station.required_headcount - (res.1.length : Int),
      is_fully_staffed := station.required_headcount - (res.1.length : Int) == 0 }
  (upsertBy Assignment.station_id acc.1 a, res.2)

/-- Modelled from the spec (§4.3, §4.4): `generate_schedule` for a
scheduler with an empty assignment log.  The rotation-statistics
builder and the priority scorer are never invoked (neither appears in
this definition, nor does the clock). -/
def generate_schedule_nohistory (s : SchedState)
    (scenario : Option ScenarioWeights) : SchedState :=
  let s1 := match scenario with
    | some w => { s with scenario := w }
    | none => s
  let avail0 := (s1.employees.map Employee.id).filter
    (fun e => !(s1.absent_employees.contains e))
  let sorted_stations := List.insertionSort stationGE s1.stations
  let res := sorted_stations.foldl (processStationFallback s1.employees) ([], avail0)
  { s1 with assignments := res.1, available_employees := res.2 }

theorem processStation_none_eq (emps : List Employee) (w : ScenarioWeights) :
    processStation emps w none = processStationFallback emps := by
  funext acc st
  rfl

/-- C7: when the assignment log is empty, `generate_schedule` computes
exactly the scorer-free schedule: each station's qualified available
candidates are ranked purely by `(certification_level, competency)`
descending, and the priority scorer is never invoked. -/
theorem C7_empty_log_fallback (today : Date) (s : SchedState)
    (sc : Option ScenarioWeights) (emps : List Employee) (avail : List String)
    (st : Station) :
    (s.assignment_logs = [] →
        generate_schedule today s sc = generate_schedule_nohistory s sc)
      ∧ ∃ ts : List (String × Int × Int),
          rank_by_certification_competency emps avail st = ts.map (·.1)
            ∧ ts.Perm (qualified_candidates emps avail st)
            ∧ ts.Pairwise (fun a b =>
                b.2.2 < a.2.2 ∨ (b.2.2 = a.2.2 ∧ b.2.1 ≤ a.2.1)) := by
  constructor
  · intro hlogs
    cases sc with
    | none =>
      show generate_schedule_core today s = _
      unfold generate_schedule_core generate_schedule_nohistory
      rw [hlogs]
      simp only [List.isEmpty_nil, if_pos]
      rw [processStation_none_eq, hlogs]
    | some w =>
      show generate_schedule_core today { s with scenario := w } = _
      unfold generate_schedule_core generate_schedule_nohistory
      dsimp only
      rw [show ({ s with scenario := w } : SchedState).assignment_logs
          = ([] : List AssignmentLog) from hlogs]
      simp only [List.isEmpty_nil, if_pos]
      rw [processStation_none_eq]
  · refine ⟨List.insertionSort legacyGE (qualified_candidates emps avail st),
      rfl, List.perm_insertionSort legacyGE _, ?_⟩
    exact List.sorted_insertionSort legacyGE _

theorem C7_empty_log_fallback_witness :
    (fixState.assignment_logs = [] →
        generate_schedule fixToday fixState none
          = generate_schedule_nohistory fixState none)
      ∧ ∃ ts : List (String × Int × Int),
          rank_by_certification_competency [fixAlice, fixBob]
              ["alice", "bob"] fixGeneral = ts.map (·.1)
            ∧ ts.Perm (qualified_candidates [fixAlice, fixBob]
                ["alice", "bob"] fixGeneral)
            ∧ ts.Pairwise (fun a b =>
                b.2.2 < a.2.2 ∨ (b.2.2 = a.2.2 ∧ b.2.1 ≤ a.2.1)) :=
  C7_empty_log_fallback fixToday fixState none [fixAlice, fixBob]
    ["alice", "bob"] fixGeneral

/-- Boolean form of the per-candidate qualification test performed
inside `_get_qualified_employees`. -/
def qualB (employees : List Employee) (emp_id : String) (station : Station) : Bool :=
  match employees.find? (fun e => e.id == emp_id) with
  | none => false
  | some emp => decide (emp.certification_level ≥ station.required_certification
      ∧ emp.get_competency station.id ≥ station.required_skill_level)

/-- The candidate ids are exactly the available ids passing the
qualification test, in availability order. -/
theorem qc_map_fst_eq_filter (emps : List Employee) (st : Station) :
    ∀ avail : List String,
      (qualified_candidates emps avail st).map (·.1)
        = avail.filter (fun x => qualB emps x st)
  | [] => rfl
  | e :: rest => by
    have ih := qc_map_fst_eq_filter emps st rest
    unfold qualified_candidates at ih ⊢
    rw [List.filterMap_cons, List.filter_cons]
    rcases hfe : emps.find? (fun e0 => e0.id == e) with _ | emp
    · rw [hfe]
      have hq : qualB emps e st = false := by
        unfold qualB
        rw [hfe]
      rw [hq]
      simpa using ih
    · rw [hfe]
      dsimp only
      by_cases hcond : emp.certification_level ≥ st.required_certification
          ∧ emp.get_competency st.id ≥ st.required_skill_level
      · rw [if_pos hcond]
        have hq : qualB emps e st = true := by
          unfold qualB
          rw [hfe]
          exact decide_eq_true hcond
        rw [hq]
        simpa using ih
      · rw [if_neg hcond]
        have hq : qualB emps e st = false := by
          unfold qualB
          rw [hfe]
          exact decide_eq_false hcond
        rw [hq]
        simpa using ih

theorem eq_singleton_of_nodup_mem_iff {l : List String} {x : String}
    (hnd : l.Nodup) (hiff : ∀ y, y ∈ l ↔ y = x) : l = [x] := by
  cases l with
  | nil => exact absurd ((hiff x).mpr rfl) (List.not_mem_nil x)
  | cons y t =>
    obtain rfl : y = x := (hiff y).mp (by simp)
    have hx_notin : y ∉ t := (List.nodup_cons.mp hnd).1
    have ht : t = [] := by
      rw [List.eq_nil_iff_forall_not_mem]
      intro z hz
      obtain rfl : z = y := (hiff z).mp (by simp [hz])
      exact hx_notin hz
    rw [ht]

/-- Membership characterization of the ranked candidate list. -/
theorem gq_mem_iff (emps : List Employee) (avail : List String)
    (w : ScenarioWeights) (st : Station) (stats? : Option StatsMap) (x : String) :
    x ∈ get_qualified_employees emps avail w st stats?
      ↔ x ∈ avail ∧ qualB emps x st = true := by
  rw [(gq_perm emps avail w st stats?).mem_iff, qc_map_fst_eq_filter, List.mem_filter]

/-- Closed form of one station step: take the top `required_headcount`
ranked candidates and erase them from the available set. -/
theorem processStation_eq (emps : List Employee) (w : ScenarioWeights)
    (stats? : Option StatsMap) (acc : List Assignment × List String) (st : Station) :
    processStation emps w stats? acc st =
      (upsertBy Assignment.station_id acc.1
        { station_id := st.id,
          assigned_employee_ids :=
            (get_qualified_employees emps acc.2 w st stats?).take
              st.required_headcount.toNat,
          unfilled_slots := st.required_headcount
            - (((get_qualified_employees emps acc.2 w st stats?).take
                st.required_headcount.toNat).length : Int),
          is_fully_staffed := st.required_headcount
            - (((get_qualified_employees emps acc.2 w st stats?).take
                st.required_headcount.toNat).length : Int) == 0 },
       ((get_qualified_employees emps acc.2 w st stats?).take
          st.required_headcount.toNat).foldl (fun l e => l.erase e) acc.2) := by
  simp only [processStation, assignLoop_eq, List.nil_append]

theorem C4_core (today : Date) (s : SchedState) (A B : Station) (wid : String)
    (hstations : s.stations = [A, B] ∨ s.stations = [B, A])
    (hABne : A.id ≠ B.id)
    (hskillA : A.required_skill_level = 3) (hskillB : B.required_skill_level = 1)
    (hhcA : A.required_headcount = 1) (hhcB : B.required_headcount = 1)
    (hen : (s.employees.map Employee.id).Nodup)
    (hw_avail : wid ∈ (s.employees.map Employee.id).filter
        (fun e => !(s.absent_employees.contains e)))
    (hwA : qualB s.employees wid A = true)
    (honly : ∀ e ∈ (s.employees.map Employee.id).filter
        (fun e => !(s.absent_employees.contains e)),
        qualB s.employees e A = true ∨ qualB s.employees e B = true → e = wid) :
    (generate_schedule_core today s).assignments =
      [{ station_id := A.id, assigned_employee_ids := [wid],
         is_fully_staffed := true, unfilled_slots := 0 },
       { station_id := B.id, assigned_employee_ids := [],
         is_fully_staffed := false, unfilled_slots := 1 }] := by
  set avail0 := (s.employees.map Employee.id).filter
    (fun e => !(s.absent_employees.contains e)) with ha0
  set stats? := (if s.assignment_logs.isEmpty then none
    else some (build_rotation_stats today 30 s.assignment_logs)) with hstq
  have hnd0 : avail0.Nodup := (List.filter_sublist _).nodup hen
  have hsort : List.insertionSort stationGE s.stations = [A, B] := by
    rcases hstations with h | h <;> rw [h] <;>
      simp [List.insertionSort, List.orderedInsert, stationGE, hskillA, hskillB]
  have hshow : (generate_schedule_core today s).assignments
      = (List.foldl (processStation s.employees s.scenario stats?) ([], avail0)
          (List.insertionSort stationGE s.stations)).1 := rfl
  rw [hshow, hsort]
  have hgqA : get_qualified_employees s.employees avail0 s.scenario A stats? = [wid] := by
    refine eq_singleton_of_nodup_mem_iff
      (gq_nodup s.employees avail0 s.scenario A stats? hnd0) ?_
    intro y
    rw [gq_mem_iff]
    constructor
    · rintro ⟨hy, hq⟩
      exact honly y hy (Or.inl hq)
    · rintro rfl
      exact ⟨hw_avail, hwA⟩
  rw [List.foldl_cons, processStation_eq, hgqA, hhcA]
  have htake : ([wid].take ((1 : Int)).toNat) = [wid] := rfl
  rw [htake]
  have herase : ([wid].foldl (fun l e => l.erase e) avail0) = avail0.erase wid := rfl
  rw [herase]
  have hupsA : upsertBy Assignment.station_id []
      { station_id := A.id, assigned_employee_ids := [wid],
        unfilled_slots := (1 : Int) - (([wid].length : Nat) : Int),
        is_fully_staffed := ((1 : Int) - (([wid].length : Nat) : Int) == 0) }
      = [{ station_id := A.id, assigned_employee_ids := [wid],
           unfilled_slots := (1 : Int) - (([wid].length : Nat) : Int),
           is_fully_staffed := ((1 : Int) - (([wid].length : Nat) : Int) == 0) }] := rfl
  rw [hupsA]
  have hgqB : get_qualified_employees s.employees (avail0.erase wid)
      s.scenario B stats? = [] := by
    rw [List.eq_nil_iff_forall_not_mem]
    intro y hy
    rw [gq_mem_iff] at hy
    obtain ⟨hy1, hy2⟩ := hy
    have hy0 : y ∈ avail0 := (List.erase_sublist wid avail0).subset hy1
    obtain rfl : y = wid := honly y hy0 (Or.inr hy2)
    exact ((hnd0.mem_erase_iff).mp hy1).1 rfl
  rw [List.foldl_cons, List.foldl_nil, processStation_eq, hgqB, hhcB]
  have htakeB : (([] : List String).take ((1 : Int)).toNat) = [] := rfl
  rw [htakeB]
  have hupsB : upsertBy Assignment.station_id
      [{ station_id := A.id, assigned_employee_ids := [wid],
         unfilled_slots := (1 : Int) - (([wid].length : Nat) : Int),
         is_fully_staffed := ((1 : Int) - (([wid].length : Nat) : Int) == 0) }]
      { station_id := B.id, assigned_employee_ids := [],
        unfilled_slots := (1 : Int) - ((([] : List String).length : Nat) : Int),
        is_fully_staffed := ((1 : Int) - ((([] : List String).length : Nat) : Int) == 0) }
      = [{ station_id := A.id, assigned_employee_ids := [wid],
           unfilled_slots := (1 : Int) - (([wid].length : Nat) : Int),
           is_fully_staffed := ((1 : Int) - (([wid].length : Nat) : Int) == 0) },
         { station_id := B.id, assigned_employee_ids := [],
           unfilled_slots := (1 : Int) - ((([] : List String).length : Nat) : Int),
           is_fully_staffed := ((1 : Int) - ((([] : List String).length : Nat) : Int) == 0) }] := by
    refine upsertBy_of_key_not_mem Assignment.station_id _ _ ?_
    intro y hy heq
    rcases List.mem_singleton.mp hy with rfl
    exact hABne (by simpa using heq)
  rw [hupsB]
  norm_num

/-- C4: `generate_schedule` fills stations in descending
`required_skill_level` order: with exactly two stations A (skill 3,
headcount 1) and B (skill 1, headcount 1) in either dict order, and a
single available worker qualified for them (qualified for both), after
`generate_schedule` that worker holds A's single slot and B is left
understaffed. -/
theorem C4_fills_critical_station_first (today : Date) (s : SchedState)
    (sc : Option ScenarioWeights) (A B : Station) (wid : String)
    (hstations : s.stations = [A, B] ∨ s.stations = [B, A])
    (hABne : A.id ≠ B.id)
    (hskillA : A.required_skill_level = 3) (hskillB : B.required_skill_level = 1)
    (hhcA : A.required_headcount = 1) (hhcB : B.required_headcount = 1)
    (hen : (s.employees.map Employee.id).Nodup)
    (hw_avail : wid ∈ (s.employees.map Employee.id).filter
        (fun e => !(s.absent_employees.contains e)))
    (hwA : qualB s.employees wid A = true)
    (_hwB : qualB s.employees wid B = true)
    (honly : ∀ e ∈ (s.employees.map Employee.id).filter
        (fun e => !(s.absent_employees.contains e)),
        qualB s.employees e A = true ∨ qualB s.employees e B = true → e = wid) :
    (generate_schedule today s sc).assignments =
      [{ station_id := A.id, assigned_employee_ids := [wid],
         is_fully_staffed := true, unfilled_slots := 0 },
       { station_id := B.id, assigned_employee_ids := [],
         is_fully_staffed := false, unfilled_slots := 1 }] := by
  cases sc with
  | none =>
    exact C4_core today s A B wid hstations hABne hskillA hskillB hhcA hhcB hen
      hw_avail hwA honly
  | some w =>
    exact C4_core today { s with scenario := w } A B wid hstations hABne hskillA
      hskillB hhcA hhcB hen hw_avail hwA honly

def fixStA : Station :=
  { id := "a", name := "High", required_skill_level := 3,
    required_headcount := 1, required_certification := 0 }

def fixStB : Station :=
  { id := "b", name := "Low", required_skill_level := 1,
    required_headcount := 1, required_certification := 0 }

def fixCarol : Employee :=
  { id := "carol", name := "Carol",
    station_competencies := [("a", 3), ("b", 2)], certification_level := 0 }

def fixDan : Employee :=
  { id := "dan", name := "Dan", station_competencies := [],
    certification_level := 0 }

def fixState2 : SchedState := initScheduler [fixStB, fixStA] [fixCarol, fixDan]

theorem C4_fills_critical_station_first_witness :
    (generate_schedule fixToday fixState2 none).assignments =
      [{ station_id := fixStA.id, assigned_employee_ids := ["carol"],
         is_fully_staffed := true, unfilled_slots := 0 },
       { station_id := fixStB.id, assigned_employee_ids := [],
         is_fully_staffed := false, unfilled_slots := 1 }] :=
  C4_fills_critical_station_first fixToday fixState2 none fixStA fixStB "carol"
    (Or.inr (by decide)) (by decide) (by decide) (by decide) (by decide) (by decide)
    (by decide) (by decide) (by decide) (by decide)
    (by decide)
